import Mathlib

/-!
Verification of the Poisson-disc image sampler (the image-based sampler:
types and functions of the module that exports getRadiusForSize,
createFirstSample, createSampleFromSample, getIndexInGrid, isInBounds,
isAllowedToDraw and poissonImageSampler).

Numbers are embedded as exact reals.  Every call to the runtime random
number generator is made explicit: a run of the sampler is parametrised by
a stream of draws (a function from the position of the draw to a real in
[0,1)), consumed left to right in exactly the order the source performs its
random() calls.  The growth loop is embedded as a step function on an
explicit state, iterated with fuel; the grid is a total map from integer
cell index to an optional sample (unset JavaScript array slots read as
none, matching reads at negative or out-of-range indices).
-/

namespace Poisson

noncomputable section

open scoped Classical

/-- Image record: a size (source type Image { size }). -/
structure Image where
  size : ℝ

/-- Bounds record { x, y, width, height }. -/
structure Bounds where
  x : ℝ
  y : ℝ
  width : ℝ
  height : ℝ

/-- Sample record { x, y, radius, index } (index = index of used image). -/
structure Sample where
  x : ℝ
  y : ℝ
  radius : ℝ
  index : ℤ

/-- The validated options the sampler core runs with: bounds, images,
minDist, maxTries, isCircle. -/
structure Config where
  bounds : Bounds
  images : List Image
  minDist : ℝ
  maxTries : ℕ
  isCircle : Bool

/-- clampRandom(min, max) = min + random() * (max - min); the draw u is the
explicit random() value. -/
def clampRandom (u lo hi : ℝ) : ℝ := lo + u * (hi - lo)

/-- getRadiusForSize(size) = Math.sqrt(Math.pow(size, 2) * 2) * 0.5. -/
def getRadiusForSize (size : ℝ) : ℝ := Real.sqrt (size ^ 2 * 2) * 0.5

/-- The radius assigned at sample creation: isCircle ? size :
getRadiusForSize(size), as in createFirstSample and
createSampleFromSample. -/
def radiusFor (isCircle : Bool) (size : ℝ) : ℝ :=
  if isCircle then size else getRadiusForSize size

/-- createFirstSample(bounds, image, isCircle): position drawn by
clampRandom(x + size, width + x - size) and clampRandom(y + size,
height + y - size), radius from radiusFor, index 0.  u1, u2 are the two
random() draws. -/
def createFirstSample (bounds : Bounds) (image : Image) (isCircle : Bool)
    (u1 u2 : ℝ) : Sample :=
  { x := clampRandom u1 (bounds.x + image.size) (bounds.width + bounds.x - image.size)
    y := clampRandom u2 (bounds.y + image.size) (bounds.height + bounds.y - image.size)
    radius := radiusFor isCircle image.size
    index := 0 }

/-- Math.floor(random() * images.length): the randomly drawn image index. -/
def chosenIndex (images : List Image) (u : ℝ) : ℤ := ⌊u * images.length⌋

/-- images[k].  The source would fault on an out-of-range access; with a
draw in [0,1) the index is always in range, and the default is never
reached in any theorem below. -/
def imageAt (images : List Image) (k : ℤ) : Image := images.getD k.toNat ⟨0⟩

/-- createSampleFromSample(sample, images, minDist, isCircle).  Draws, in
source order: u1 the image index, u2 the angle (times 2 pi), u3 the radial
distance used for x, u4 the (separately drawn) radial distance used for y.
minRadius = minDist + size + sample.radius, maxRadius = minRadius + minDist. -/
def createSampleFromSample (s : Sample) (images : List Image) (minDist : ℝ)
    (isCircle : Bool) (u1 u2 u3 u4 : ℝ) : Sample :=
  let k := chosenIndex images u1
  let size := (imageAt images k).size
  let angle := u2 * Real.pi * 2
  let minRadius := minDist + size + s.radius
  let maxRadius := minRadius + minDist
  { x := s.x + Real.cos angle * clampRandom u3 minRadius maxRadius
    y := s.y + Real.sin angle * clampRandom u4 minRadius maxRadius
    radius := radiusFor isCircle size
    index := k }

/-- getIndexInGrid(sample, cellSize, cols) = floor(x / cellSize) +
floor(y / cellSize) * cols. -/
def getIndexInGrid (s : Sample) (cellSize : ℝ) (cols : ℤ) : ℤ :=
  ⌊s.x / cellSize⌋ + ⌊s.y / cellSize⌋ * cols

/-- isInBounds(sample, col, row, cols, rows, bounds): col < cols, row <
rows, and the rectangle tests x - radius >= 0, x + radius <= bounds.width,
y - radius >= 0, y + radius <= bounds.height (the source compares against
0 and width/height, not against bounds.x / bounds.y offsets). -/
def isInBounds (s : Sample) (col row cols rows : ℤ) (bounds : Bounds) : Prop :=
  col < cols ∧ row < rows ∧
    0 ≤ s.x - s.radius ∧ s.x + s.radius ≤ bounds.width ∧
    0 ≤ s.y - s.radius ∧ s.y + s.radius ≤ bounds.height

/-- Math.hypot(a, b). -/
def hypot (a b : ℝ) : ℝ := Real.sqrt (a ^ 2 + b ^ 2)

/-- isAllowedToDraw(sample, cellSize, cols, minDist, grid, range): scan all
offsets i, j in [-range, range]; reject when an occupied looked-up slot
holds a neighbour with hypot distance < minDist + sample.radius +
neighbour.radius.  The lookup index col + i + (row + j) * cols is the raw
linear expression of the source, with no bounds clamping. -/
def isAllowedToDraw (s : Sample) (cellSize : ℝ) (cols : ℤ) (minDist : ℝ)
    (grid : ℤ → Option Sample) (range : ℤ) : Prop :=
  ∀ i j : ℤ, -range ≤ i → i ≤ range → -range ≤ j → j ≤ range →
    ∀ nb, grid (⌊s.x / cellSize⌋ + i + (⌊s.y / cellSize⌋ + j) * cols) = some nb →
      ¬ hypot (nb.x - s.x) (nb.y - s.y) < minDist + s.radius + nb.radius

/-- Math.min(...images.map(v => v.size)) for a non-empty list. -/
def minSize : List Image → ℝ
  | [] => 0
  | i :: t => t.foldl (fun a b => min a b.size) i.size

/-- Math.max(...images.map(v => v.size)) for a non-empty list. -/
def maxSize : List Image → ℝ
  | [] => 0
  | i :: t => t.foldl (fun a b => max a b.size) i.size

/-- CELL_SIZE = (MIN_DIST + minRadius * 2) / Math.sqrt(2), where the
source's local minRadius is the minimum image size. -/
def cellSize (cfg : Config) : ℝ :=
  (cfg.minDist + minSize cfg.images * 2) / Real.sqrt 2

/-- COLS = Math.floor(BOUNDS.width / CELL_SIZE). -/
def numCols (cfg : Config) : ℤ := ⌊cfg.bounds.width / cellSize cfg⌋

/-- ROWS = Math.floor(BOUNDS.height / CELL_SIZE). -/
def numRows (cfg : Config) : ℤ := ⌊cfg.bounds.height / cellSize cfg⌋

/-- RANGE = Math.ceil((MIN_DIST + maxRadius * 2) / CELL_SIZE), where the
source's local maxRadius is the maximum image size. -/
def neighborRange (cfg : Config) : ℤ :=
  ⌈(cfg.minDist + maxSize cfg.images * 2) / cellSize cfg⌉

/-- State of the growth loop: the grid, the active list, the trace of all
samples accepted so far in acceptance order (the first sample included),
and the position of the next unread draw of the stream. -/
structure St where
  grid : ℤ → Option Sample
  active : List Sample
  placed : List Sample
  pos : ℕ

/-- The first sample: createFirstSample(BOUNDS, IMAGES[0], IS_CIRCLE),
consuming draws 0 and 1. -/
def firstSample (cfg : Config) (stream : ℕ → ℝ) : Sample :=
  createFirstSample cfg.bounds (cfg.images.getD 0 ⟨0⟩) cfg.isCircle (stream 0) (stream 1)

/-- Column of the first sample (the source's toplevel col, which the loop
body keeps reusing for every candidate). -/
def col0 (cfg : Config) (stream : ℕ → ℝ) : ℤ :=
  ⌊(firstSample cfg stream).x / cellSize cfg⌋

/-- Row of the first sample (the source's toplevel row). -/
def row0 (cfg : Config) (stream : ℕ → ℝ) : ℤ :=
  ⌊(firstSample cfg stream).y / cellSize cfg⌋

/-- The guard deciding the early empty return: isInBounds(sample, col, row,
COLS, ROWS, BOUNDS) on the first sample. -/
def firstSampleOk (cfg : Config) (stream : ℕ → ℝ) : Prop :=
  isInBounds (firstSample cfg stream) (col0 cfg stream) (row0 cfg stream)
    (numCols cfg) (numRows cfg) cfg.bounds

/-- GRID[k] = s on a functional grid. -/
def insertGrid (g : ℤ → Option Sample) (k : ℤ) (s : Sample) : ℤ → Option Sample :=
  fun k' => if k' = k then some s else g k'

/-- The state right after the first sample is stored in the grid and pushed
onto the active list. -/
def initState (cfg : Config) (stream : ℕ → ℝ) : St :=
  let s0 := firstSample cfg stream
  { grid := insertGrid (fun _ => none) (getIndexInGrid s0 (cellSize cfg) (numCols cfg)) s0
    active := [s0]
    placed := [s0]
    pos := 2 }

/-- Placeholder sample for list reads the source could only reach by
faulting; never reached under a valid stream. -/
def dfltSample : Sample := ⟨0, 0, 0, 0⟩

/-- ACTIVE[Math.floor(random() * ACTIVE.length)]: the randomly selected
active seed, with u the explicit draw. -/
def pickSeed (l : List Sample) (u : ℝ) : Sample := l.getD (⌊u * l.length⌋).toNat dfltSample

/-- The candidate built inside one inner-loop iteration: the
createSampleFromSample call, consuming the four draws at positions p..p+3. -/
def candidate (cfg : Config) (stream : ℕ → ℝ) (seed : Sample) (p : ℕ) : Sample :=
  createSampleFromSample seed cfg.images cfg.minDist cfg.isCircle
    (stream p) (stream (p + 1)) (stream (p + 2)) (stream (p + 3))

/-- One iteration of the inner try loop: generate a candidate from the
seed (consuming four draws), drop it when isInBounds (called with the
FIRST sample's col and row, as the source does) or isAllowedToDraw fails,
otherwise store it in the grid, push it on the active list and record the
success flag. -/
def tryOnce (cfg : Config) (stream : ℕ → ℝ) (c0 r0 : ℤ) (seed : Sample)
    (st : St × Bool) : St × Bool :=
  let c := candidate cfg stream seed st.1.pos
  if isInBounds c c0 r0 (numCols cfg) (numRows cfg) cfg.bounds then
    if isAllowedToDraw c (cellSize cfg) (numCols cfg) cfg.minDist st.1.grid (neighborRange cfg) then
      (⟨insertGrid st.1.grid (getIndexInGrid c (cellSize cfg) (numCols cfg)) c,
        st.1.active ++ [c], st.1.placed ++ [c], st.1.pos + 4⟩, true)
    else ({ st.1 with pos := st.1.pos + 4 }, st.2)
  else ({ st.1 with pos := st.1.pos + 4 }, st.2)

/-- The inner for loop: n tries in sequence. -/
def tries (cfg : Config) (stream : ℕ → ℝ) (c0 r0 : ℤ) (seed : Sample) :
    ℕ → St × Bool → St × Bool
  | 0, st => st
  | n + 1, st => tries cfg stream c0 r0 seed n (tryOnce cfg stream c0 r0 seed st)

/-- One iteration of the outer while loop: pick a random active index
(consuming one draw), run MAX_TRIES tries from that seed, and splice the
seed out of the active list when no try succeeded.  On an empty active
list the state is returned unchanged (the loop has exited). -/
def step (cfg : Config) (stream : ℕ → ℝ) (c0 r0 : ℤ) (st : St) : St :=
  if st.active = [] then st
  else
    let seed := pickSeed st.active (stream st.pos)
    let r := tries cfg stream c0 r0 seed cfg.maxTries ({ st with pos := st.pos + 1 }, false)
    if r.2 then r.1
    else { r.1 with active := r.1.active.eraseIdx (⌊stream st.pos * st.active.length⌋).toNat }

/-- The growth loop after n outer iterations. -/
def runState (cfg : Config) (stream : ℕ → ℝ) : ℕ → St
  | 0 => initState cfg stream
  | n + 1 => step cfg stream (col0 cfg stream) (row0 cfg stream) (runState cfg stream n)

/-- poissonImageSampler on already validated values.  Returns some (trace,
grid) when the run completes: either by the early return (empty trace,
empty grid: the source's return []) or because the active list has emptied
within the given fuel; none when the loop is still running after fuel
iterations. -/
def poissonImageSampler (cfg : Config) (stream : ℕ → ℝ) (fuel : ℕ) :
    Option (List Sample × (ℤ → Option Sample)) :=
  if firstSampleOk cfg stream then
    let st := runState cfg stream fuel
    if st.active = [] then some (st.placed, st.grid) else none
  else some ([], fun _ => none)

/-- Every random() draw lies in [0, 1). -/
def validStream (stream : ℕ → ℝ) : Prop := ∀ n, 0 ≤ stream n ∧ stream n < 1

/-- The validated-input precondition the claims quantify over: positive
bounds extents, a non-empty image list of positive sizes, non-negative
minDist and at least one try. -/
def validConfig (cfg : Config) : Prop :=
  0 < cfg.bounds.width ∧ 0 < cfg.bounds.height ∧ cfg.images ≠ [] ∧
    (∀ img ∈ cfg.images, 0 < img.size) ∧ 0 ≤ cfg.minDist ∧ 1 ≤ cfg.maxTries

/-- A sample whose radius and index derive from some entry of the image
list exactly as the creation functions assign them. -/
def SampleWf (cfg : Config) (s : Sample) : Prop :=
  (∃ img ∈ cfg.images, s.radius = radiusFor cfg.isCircle img.size) ∧
    0 ≤ s.index ∧ s.index < (cfg.images.length : ℤ)

/-- The rectangle part of isInBounds, as recorded for every accepted
sample. -/
def InRect (cfg : Config) (s : Sample) : Prop :=
  0 ≤ s.x - s.radius ∧ s.x + s.radius ≤ cfg.bounds.width ∧
    0 ≤ s.y - s.radius ∧ s.y + s.radius ≤ cfg.bounds.height

/-- Run invariant: every grid slot holds exactly the sample whose
getIndexInGrid position it is, every grid occupant was accepted, accepted
samples are well-formed and inside the rectangle, active samples were
accepted, and distinct occupied grid slots keep the spacing distance. -/
def Inv (cfg : Config) (st : St) : Prop :=
  (∀ k s, st.grid k = some s → k = getIndexInGrid s (cellSize cfg) (numCols cfg)) ∧
  (∀ k s, st.grid k = some s → s ∈ st.placed) ∧
  (∀ s ∈ st.placed, SampleWf cfg s ∧ InRect cfg s) ∧
  (∀ s ∈ st.active, s ∈ st.placed) ∧
  (∀ k1 k2 s1 s2, st.grid k1 = some s1 → st.grid k2 = some s2 → k1 ≠ k2 →
    cfg.minDist + s1.radius + s2.radius ≤ hypot (s2.x - s1.x) (s2.y - s1.y))

/-- Run R1: bounds with origin x = 20, one image of size 1, minDist
10 sqrt 2 - 2 (so the derived cell size is exactly 10), one try per seed. -/
def cfgR1 : Config := ⟨⟨20, 0, 40, 40⟩, [⟨1⟩], 10 * Real.sqrt 2 - 2, 1, true⟩

/-- The draw sequence of run R1: first sample at (25, 20); iteration 1
grows a child at angle pi and radial distance 10 sqrt 2; iterations 2 and 3
produce rejected candidates, emptying the active list. -/
def streamR1 : ℕ → ℝ := fun p =>
  if p = 0 then 2 / 19 else if p = 1 then 1 / 2 else if p = 4 then 1 / 2 else 0

/-- The first sample of run R1. -/
def S0R1 : Sample := ⟨25, 20, 1, 0⟩

/-- The one child accepted in run R1; its footprint crosses x = 20, the
left edge of the requested rectangle. -/
def S1R1 : Sample := ⟨25 - 10 * Real.sqrt 2, 20, 1, 0⟩

/-- Grid of R1 after the first sample. -/
def gR1a : ℤ → Option Sample := insertGrid (fun _ => none) 10 S0R1

/-- Final grid of R1. -/
def gR1 : ℤ → Option Sample := insertGrid gR1a 9 S1R1

/-- Run R2: square bounds 25 x 25 with a 2 x 2 grid; the first child is
generated straight down from the first sample and lands in the row-2
overflow strip, so its flat index ends up outside [0, numCols numRows). -/
def cfgR2 : Config := ⟨⟨0, 0, 25, 25⟩, [⟨1⟩], 10 * Real.sqrt 2 - 2, 1, true⟩

/-- The draw sequence of run R2: first sample at (5,5); iteration 1 grows a
child at angle pi/2 and radial distance 15.5; iterations 2 and 3 reject
leftward candidates, emptying the active list. -/
def streamR2 : ℕ → ℝ := fun p =>
  if p = 0 then 4 / 23 else if p = 1 then 4 / 23 else if p = 4 then 1 / 4 else
  if p = 5 then (135 * Real.sqrt 2 - 169) / 196 else
  if p = 6 then (135 * Real.sqrt 2 - 169) / 196 else
  if p = 9 then 1 / 2 else if p = 14 then 1 / 2 else 0

/-- The first sample of run R2. -/
def S0R2 : Sample := ⟨5, 5, 1, 0⟩

/-- The accepted child of run R2: its own row, floor(20.5/10) = 2, equals
numRows, so its flat index 0 + 2 * 2 = 4 lies outside [0, 4). -/
def S1R2 : Sample := ⟨5, 41 / 2, 1, 0⟩

/-- Grid of R2 after the first sample. -/
def gR2a : ℤ → Option Sample := insertGrid (fun _ => none) 0 S0R2

/-- Final grid of R2. -/
def gR2 : ℤ → Option Sample := insertGrid gR2a 4 S1R2

/-- Run R5: 45 x 45 bounds with a 4 x 4 grid and a column-overflow strip
(x in [40,44] has column 4 = numCols).  Samples stored in that strip alias
in-grid slots: cell (4, r) and cell (0, r+1) share the flat index, so two
far-apart locations fight over one slot and the loop can run forever. -/
def cfgR5 : Config := ⟨⟨0, 0, 45, 45⟩, [⟨1⟩], 10 * Real.sqrt 2 - 2, 1, true⟩

/-- First sample of R5, the permanent seed of the A-candidates. -/
def S0R5 : Sample := ⟨21, 25, 1, 0⟩

/-- Child of the first sample (iteration 1), the permanent seed of the
B-candidates. -/
def SBR5 : Sample := ⟨5, 9, 1, 0⟩

/-- The A-candidate: cell (4, 2), in the overflow strip, flat index 12. -/
def AR5 : Sample := ⟨41, 25, 1, 0⟩

/-- The B-candidate: cell (0, 3), flat index 12 as well. -/
def BR5 : Sample := ⟨5, 31, 1, 0⟩

/-- R5 grid after the first sample (index 10). -/
def gR5init : ℤ → Option Sample := insertGrid (fun _ => none) 10 S0R5

/-- R5 grid after iteration 1 (SBR5 at index 0). -/
def gR5X : ℤ → Option Sample := insertGrid gR5init 0 SBR5

/-- R5 grid after every even iteration at least 2: AR5 occupies index 12. -/
def gR5A : ℤ → Option Sample := insertGrid gR5X 12 AR5

/-- R5 grid after every odd iteration at least 3: BR5 overwrites index 12. -/
def gR5B : ℤ → Option Sample := insertGrid gR5A 12 BR5

/-- The alternating tail of R5's ever-growing active list. -/
def altR5 : ℕ → List Sample
  | 0 => []
  | n + 1 => altR5 n ++ [if n % 2 = 0 then AR5 else BR5]

/-- The draw sequence of run R5.  Positions 0 and 1 place the first sample
at (21, 25); afterwards each iteration k consumes five draws (seed
selection, image index, angle, two radial distances).  Iteration 1 grows
SBR5 from the first sample (angle 5 pi / 4, distance 16 sqrt 2); even
iterations grow AR5 from the first sample (angle 0, distance 20); odd
iterations at least 3 grow BR5 from SBR5 (angle pi / 2, distance 22),
each acceptance overwriting index 12. -/
def streamR5 : ℕ → ℝ := fun p =>
  if p < 2 then (if p = 0 then 20 / 43 else 24 / 43)
  else
    let k := (p - 2) / 5 + 1
    let slot := (p - 2) % 5
    if slot = 0 then (if k = 1 then 0 else if k % 2 = 0 then 0 else 1 / (k : ℝ))
    else if slot = 1 then 0
    else if slot = 2 then (if k = 1 then 5 / 8 else if k % 2 = 0 then 0 else 1 / 4)
    else if k = 1 then (30 + 3 * Real.sqrt 2) / 49
    else if k % 2 = 0 then (45 * Real.sqrt 2 - 40) / 49
    else (50 * Real.sqrt 2 - 39) / 49

/-- The growth loop has emptied its active list after some number of
iterations (the loop of the source exits). -/
def SamplerTerminates (cfg : Config) (stream : ℕ → ℝ) : Prop :=
  ∃ n, (runState cfg stream n).active = []

/-- No placeable sample can land in the column-overflow strip: the bounds
width stops short of numCols cellSize plus the smallest image size. -/
def NoColStrip (cfg : Config) : Prop :=
  cfg.bounds.width < (numCols cfg : ℝ) * cellSize cfg + minSize cfg.images

/-- Flat grid index of a sample under a configuration's derived grid. -/
def idxOf (cfg : Config) (s : Sample) : ℤ :=
  getIndexInGrid s (cellSize cfg) (numCols cfg)

/-- Companion invariant for the termination argument: every accepted
sample's slot is occupied, and accepted samples have pairwise distinct
flat indices. -/
def Inv5 (cfg : Config) (st : St) : Prop :=
  (∀ s ∈ st.placed, (st.grid (idxOf cfg s)).isSome = true) ∧
  (st.placed.map (idxOf cfg)).Nodup

/-- Termination measure of the growth loop: twice the number of still-free
reachable slots plus the active-list length. -/
def loopMeasure (cfg : Config) (st : St) : ℕ :=
  2 * ((numCols cfg * (numRows cfg + 1)).toNat - st.placed.length) + st.active.length

-- (more definitions are inserted above this line)

/-! ## Basic facts about the embedded arithmetic -/

theorem sqrt2_sq : Real.sqrt 2 * Real.sqrt 2 = 2 := Real.mul_self_sqrt (by norm_num)

theorem sqrt2_pos : 0 < Real.sqrt 2 := Real.sqrt_pos.mpr (by norm_num)

theorem sqrt2_lb : 1.414 < Real.sqrt 2 := by
  nlinarith [sqrt2_sq, Real.sqrt_nonneg 2]

theorem sqrt2_ub : Real.sqrt 2 < 1.415 := by
  nlinarith [sqrt2_sq, Real.sqrt_nonneg 2]

theorem getRadiusForSize_eq {s : ℝ} (hs : 0 ≤ s) :
    getRadiusForSize s = s * Real.sqrt 2 / 2 := by
  unfold getRadiusForSize
  rw [Real.sqrt_mul (sq_nonneg s), Real.sqrt_sq hs]
  ring

theorem getRadiusForSize_pos {s : ℝ} (hs : 0 < s) : 0 < getRadiusForSize s := by
  rw [getRadiusForSize_eq hs.le]
  have := sqrt2_pos
  positivity

theorem getRadiusForSize_le {s : ℝ} (hs : 0 ≤ s) : getRadiusForSize s ≤ s := by
  rw [getRadiusForSize_eq hs]
  nlinarith [sqrt2_ub]

theorem radiusFor_pos {s : ℝ} (c : Bool) (hs : 0 < s) : 0 < radiusFor c s := by
  cases c <;> simp [radiusFor]
  · exact getRadiusForSize_pos hs
  · exact hs

theorem radiusFor_le {s : ℝ} (c : Bool) (hs : 0 ≤ s) : radiusFor c s ≤ s := by
  cases c <;> simp [radiusFor]
  exact getRadiusForSize_le hs

theorem clampRandom_mem {u lo hi : ℝ} (h0 : 0 ≤ u) (h1 : u ≤ 1) (hlo : lo ≤ hi) :
    lo ≤ clampRandom u lo hi ∧ clampRandom u lo hi ≤ hi := by
  unfold clampRandom
  constructor <;> nlinarith

theorem chosenIndex_nonneg {images : List Image} {u : ℝ} (hu : 0 ≤ u) :
    0 ≤ chosenIndex images u :=
  Int.floor_nonneg.mpr (by positivity)

theorem chosenIndex_lt {images : List Image} {u : ℝ} (hne : images ≠ [])
    (h0 : 0 ≤ u) (h1 : u < 1) : chosenIndex images u < (images.length : ℤ) := by
  have hlen : 0 < (images.length : ℝ) := by
    have := List.length_pos.mpr hne
    exact_mod_cast this
  apply Int.floor_lt.mpr
  push_cast
  nlinarith

theorem imageAt_chosen_mem {images : List Image} {u : ℝ} (hne : images ≠ [])
    (h0 : 0 ≤ u) (h1 : u < 1) : imageAt images (chosenIndex images u) ∈ images := by
  unfold imageAt
  have hnn := @chosenIndex_nonneg images u h0
  have hlt := chosenIndex_lt hne h0 h1
  have hlt' : (chosenIndex images u).toNat < images.length := by omega
  rw [List.getD_eq_getElem _ _ hlt']
  exact List.getElem_mem _

theorem hypot_nonneg (a b : ℝ) : 0 ≤ hypot a b := Real.sqrt_nonneg _

theorem le_hypot_iff {c a b : ℝ} (hc : 0 ≤ c) : c ≤ hypot a b ↔ c ^ 2 ≤ a ^ 2 + b ^ 2 :=
  Real.le_sqrt hc (by positivity)

theorem hypot_le_iff {c a b : ℝ} (hc : 0 ≤ c) : hypot a b ≤ c ↔ a ^ 2 + b ^ 2 ≤ c ^ 2 :=
  Real.sqrt_le_left hc

theorem not_hypot_lt {a b c : ℝ} (hc : 0 ≤ c) (h : c ^ 2 ≤ a ^ 2 + b ^ 2) :
    ¬ hypot a b < c :=
  not_lt.mpr ((le_hypot_iff hc).mpr h)

theorem abs_le_hypot (a b : ℝ) : |a| ≤ hypot a b :=
  Real.abs_le_sqrt (by nlinarith [sq_nonneg b])

theorem annulus_core {co si d1 d2 lo hi : ℝ} (hpyth : si ^ 2 + co ^ 2 = 1)
    (hlo : 0 ≤ lo) (h1l : lo ≤ d1) (h1u : d1 ≤ hi) (h2l : lo ≤ d2) (h2u : d2 ≤ hi) :
    lo ^ 2 ≤ (co * d1) ^ 2 + (si * d2) ^ 2 ∧ (co * d1) ^ 2 + (si * d2) ^ 2 ≤ hi ^ 2 := by
  have hc := sq_nonneg co
  have hs := sq_nonneg si
  have e1 : lo ^ 2 ≤ d1 ^ 2 := by nlinarith
  have e2 : lo ^ 2 ≤ d2 ^ 2 := by nlinarith
  have e3 : d1 ^ 2 ≤ hi ^ 2 := by nlinarith
  have e4 : d2 ^ 2 ≤ hi ^ 2 := by nlinarith
  constructor <;> nlinarith [mul_le_mul_of_nonneg_left e1 hc, mul_le_mul_of_nonneg_left e2 hs,
    mul_le_mul_of_nonneg_left e3 hc, mul_le_mul_of_nonneg_left e4 hs]

/-! ## Minimum and maximum image size, and grid-geometry facts -/

theorem foldl_min_le_start (t : List Image) :
    ∀ a : ℝ, t.foldl (fun x y => min x y.size) a ≤ a := by
  induction t with
  | nil => intro a; simp
  | cons b t ih =>
    intro a
    calc (b :: t).foldl (fun x y => min x y.size) a
        = t.foldl (fun x y => min x y.size) (min a b.size) := rfl
      _ ≤ min a b.size := ih _
      _ ≤ a := min_le_left _ _

theorem foldl_min_le_mem {b : Image} (t : List Image) (hb : b ∈ t) :
    ∀ a : ℝ, t.foldl (fun x y => min x y.size) a ≤ b.size := by
  induction t with
  | nil => cases hb
  | cons c t ih =>
    intro a
    rcases List.mem_cons.mp hb with h | h
    · subst h
      calc (b :: t).foldl (fun x y => min x y.size) a
          = t.foldl (fun x y => min x y.size) (min a b.size) := rfl
        _ ≤ min a b.size := foldl_min_le_start _ _
        _ ≤ b.size := min_le_right _ _
    · exact ih h _

theorem pos_foldl_min (t : List Image) (hsz : ∀ b ∈ t, 0 < b.size) :
    ∀ a : ℝ, 0 < a → 0 < t.foldl (fun x y => min x y.size) a := by
  induction t with
  | nil => intro a ha; simpa using ha
  | cons c t ih =>
    intro a ha
    have hc : 0 < c.size := hsz c (by simp)
    exact ih (fun b hb => hsz b (by simp [hb])) _ (lt_min ha hc)

theorem start_le_foldl_max (t : List Image) :
    ∀ a : ℝ, a ≤ t.foldl (fun x y => max x y.size) a := by
  induction t with
  | nil => intro a; simp
  | cons b t ih =>
    intro a
    calc a ≤ max a b.size := le_max_left _ _
      _ ≤ t.foldl (fun x y => max x y.size) (max a b.size) := ih _
      _ = (b :: t).foldl (fun x y => max x y.size) a := rfl

theorem mem_le_foldl_max {b : Image} (t : List Image) (hb : b ∈ t) :
    ∀ a : ℝ, b.size ≤ t.foldl (fun x y => max x y.size) a := by
  induction t with
  | nil => cases hb
  | cons c t ih =>
    intro a
    rcases List.mem_cons.mp hb with h | h
    · subst h
      calc b.size ≤ max a b.size := le_max_right _ _
        _ ≤ t.foldl (fun x y => max x y.size) (max a b.size) := start_le_foldl_max _ _
    · exact ih h _

theorem minSize_le {images : List Image} {img : Image} (h : img ∈ images) :
    minSize images ≤ img.size := by
  cases images with
  | nil => cases h
  | cons i t =>
    rcases List.mem_cons.mp h with hh | hh
    · subst hh
      exact foldl_min_le_start t _
    · exact foldl_min_le_mem t hh _

theorem le_maxSize {images : List Image} {img : Image} (h : img ∈ images) :
    img.size ≤ maxSize images := by
  cases images with
  | nil => cases h
  | cons i t =>
    rcases List.mem_cons.mp h with hh | hh
    · subst hh
      exact start_le_foldl_max t _
    · exact mem_le_foldl_max t hh _

theorem minSize_pos {images : List Image} (hne : images ≠ [])
    (hsz : ∀ img ∈ images, 0 < img.size) : 0 < minSize images := by
  cases images with
  | nil => exact absurd rfl hne
  | cons i t =>
    exact pos_foldl_min t (fun b hb => hsz b (by simp [hb])) _ (hsz i (by simp))

theorem maxSize_pos {images : List Image} (hne : images ≠ [])
    (hsz : ∀ img ∈ images, 0 < img.size) : 0 < maxSize images := by
  cases images with
  | nil => exact absurd rfl hne
  | cons i t =>
    exact lt_of_lt_of_le (hsz i (by simp)) (le_maxSize (by simp))

theorem cellSize_pos {cfg : Config} (hv : validConfig cfg) : 0 < cellSize cfg := by
  obtain ⟨-, -, hne, hsz, hm, -⟩ := hv
  have := minSize_pos hne hsz
  unfold cellSize
  positivity

theorem numCols_nonneg {cfg : Config} (hv : validConfig cfg) : 0 ≤ numCols cfg := by
  have hcs := cellSize_pos hv
  have hw := hv.1
  exact Int.floor_nonneg.mpr (by positivity)

theorem numRows_nonneg {cfg : Config} (hv : validConfig cfg) : 0 ≤ numRows cfg := by
  have hcs := cellSize_pos hv
  have hh := hv.2.1
  exact Int.floor_nonneg.mpr (by positivity)

theorem range_mul_cellSize {cfg : Config} (hv : validConfig cfg) :
    cfg.minDist + maxSize cfg.images * 2 ≤ neighborRange cfg * cellSize cfg := by
  have hcs := cellSize_pos hv
  have hceil := Int.le_ceil ((cfg.minDist + maxSize cfg.images * 2) / cellSize cfg)
  rw [div_le_iff hcs] at hceil
  exact hceil

theorem neighborRange_nonneg {cfg : Config} (hv : validConfig cfg) :
    0 ≤ neighborRange cfg := by
  have hM := maxSize_pos hv.2.2.1 hv.2.2.2.1
  have hcs := cellSize_pos hv
  have hm := hv.2.2.2.2.1
  exact Int.ceil_nonneg (by positivity)

theorem radius_le_maxSize {cfg : Config} (hv : validConfig cfg) {s : Sample}
    (hwf : SampleWf cfg s) : s.radius ≤ maxSize cfg.images := by
  obtain ⟨⟨img, hmem, hrad⟩, -⟩ := hwf
  have h0 : 0 ≤ img.size := (hv.2.2.2.1 img hmem).le
  calc s.radius = radiusFor cfg.isCircle img.size := hrad
    _ ≤ img.size := radiusFor_le _ h0
    _ ≤ maxSize cfg.images := le_maxSize hmem

theorem radius_pos {cfg : Config} (hv : validConfig cfg) {s : Sample}
    (hwf : SampleWf cfg s) : 0 < s.radius := by
  obtain ⟨⟨img, hmem, hrad⟩, -⟩ := hwf
  rw [hrad]
  exact radiusFor_pos _ (hv.2.2.2.1 img hmem)

theorem floor_diff_le {x y c : ℝ} {R : ℤ} (hc : 0 < c) (h : |x - y| ≤ R * c) :
    |⌊x / c⌋ - ⌊y / c⌋| ≤ R := by
  rw [abs_le] at h
  have h1 : x / c ≤ y / c + R := by
    rw [div_add' _ _ _ hc.ne.symm, div_le_div_iff_of_pos_right hc]
    linarith
  have h2 : y / c ≤ x / c + R := by
    rw [div_add' _ _ _ hc.ne.symm, div_le_div_iff_of_pos_right hc]
    linarith
  have f1 : ⌊x / c⌋ ≤ ⌊y / c⌋ + R := by
    calc ⌊x / c⌋ ≤ ⌊y / c + R⌋ := Int.floor_le_floor h1
      _ = ⌊y / c⌋ + R := Int.floor_add_int _ _
  have f2 : ⌊y / c⌋ ≤ ⌊x / c⌋ + R := by
    calc ⌊y / c⌋ ≤ ⌊x / c + R⌋ := Int.floor_le_floor h2
      _ = ⌊x / c⌋ + R := Int.floor_add_int _ _
  rw [abs_le]
  omega

theorem hypot_sub_comm (a b c d : ℝ) : hypot (a - b) (c - d) = hypot (b - a) (d - c) := by
  unfold hypot
  congr 1
  ring

/-- If a candidate passes isAllowedToDraw against a grid whose occupants
sit at their own getIndexInGrid slot and are well-formed, then the
candidate keeps the spacing distance from every occupant of the grid. -/
theorem spacing_of_allowed {cfg : Config} (hv : validConfig cfg)
    {g : ℤ → Option Sample}
    (hcons : ∀ k s, g k = some s → k = getIndexInGrid s (cellSize cfg) (numCols cfg))
    (hwf : ∀ k s, g k = some s → SampleWf cfg s)
    {c : Sample} (hcwf : SampleWf cfg c)
    (hallow : isAllowedToDraw c (cellSize cfg) (numCols cfg) cfg.minDist g (neighborRange cfg)) :
    ∀ k s, g k = some s → cfg.minDist + c.radius + s.radius ≤ hypot (s.x - c.x) (s.y - c.y) := by
  intro k s hks
  by_contra hlt
  push_neg at hlt
  have hcs := cellSize_pos hv
  have hrc := radius_le_maxSize hv hcwf
  have hrs := radius_le_maxSize hv (hwf k s hks)
  have hRcs := range_mul_cellSize hv
  have hdx : |s.x - c.x| ≤ hypot (s.x - c.x) (s.y - c.y) := abs_le_hypot _ _
  have hdy : |s.y - c.y| ≤ hypot (s.y - c.y) (s.x - c.x) := abs_le_hypot _ _
  have hyx : hypot (s.y - c.y) (s.x - c.x) = hypot (s.x - c.x) (s.y - c.y) := by
    unfold hypot; congr 1; ring
  rw [hyx] at hdy
  have hxb : |s.x - c.x| ≤ neighborRange cfg * cellSize cfg := by linarith
  have hyb : |s.y - c.y| ≤ neighborRange cfg * cellSize cfg := by linarith
  have hcol := floor_diff_le hcs hxb
  have hrow := floor_diff_le hcs hyb
  rw [abs_le] at hcol hrow
  have hfind := hallow (⌊s.x / cellSize cfg⌋ - ⌊c.x / cellSize cfg⌋)
    (⌊s.y / cellSize cfg⌋ - ⌊c.y / cellSize cfg⌋)
    (by omega) (by omega) (by omega) (by omega) s
  have hidx : ⌊c.x / cellSize cfg⌋ + (⌊s.x / cellSize cfg⌋ - ⌊c.x / cellSize cfg⌋) +
      (⌊c.y / cellSize cfg⌋ + (⌊s.y / cellSize cfg⌋ - ⌊c.y / cellSize cfg⌋)) * numCols cfg = k := by
    rw [hcons k s hks]
    unfold getIndexInGrid
    ring
  rw [hidx] at hfind
  exact hfind hks hlt

/-! ## Shape of the inner try loop and of one outer iteration -/

theorem tryOnce_accept {cfg : Config} {stream : ℕ → ℝ} {c0 r0 : ℤ} {seed : Sample}
    {st : St} {f : Bool}
    (h1 : isInBounds (candidate cfg stream seed st.pos) c0 r0 (numCols cfg) (numRows cfg) cfg.bounds)
    (h2 : isAllowedToDraw (candidate cfg stream seed st.pos) (cellSize cfg) (numCols cfg)
      cfg.minDist st.grid (neighborRange cfg)) :
    tryOnce cfg stream c0 r0 seed (st, f) =
      (⟨insertGrid st.grid
          (getIndexInGrid (candidate cfg stream seed st.pos) (cellSize cfg) (numCols cfg))
          (candidate cfg stream seed st.pos),
        st.active ++ [candidate cfg stream seed st.pos],
        st.placed ++ [candidate cfg stream seed st.pos], st.pos + 4⟩, true) := by
  simp only [tryOnce, if_pos h1, if_pos h2]

theorem tryOnce_reject {cfg : Config} {stream : ℕ → ℝ} {c0 r0 : ℤ} {seed : Sample}
    {st : St} {f : Bool}
    (h : ¬ isInBounds (candidate cfg stream seed st.pos) c0 r0 (numCols cfg) (numRows cfg)
        cfg.bounds ∨
      ¬ isAllowedToDraw (candidate cfg stream seed st.pos) (cellSize cfg) (numCols cfg)
        cfg.minDist st.grid (neighborRange cfg)) :
    tryOnce cfg stream c0 r0 seed (st, f) = ({ st with pos := st.pos + 4 }, f) := by
  rcases h with h | h
  · simp only [tryOnce, if_neg h]
  · by_cases h1 : isInBounds (candidate cfg stream seed st.pos) c0 r0 (numCols cfg)
        (numRows cfg) cfg.bounds
    · simp only [tryOnce, if_pos h1, if_neg h]
    · simp only [tryOnce, if_neg h1]

theorem tries_shape (cfg : Config) (stream : ℕ → ℝ) (c0 r0 : ℤ) (seed : Sample)
    (n : ℕ) : ∀ (st : St) (f : Bool),
    ∃ L : List Sample,
      (tries cfg stream c0 r0 seed n (st, f)).1.active = st.active ++ L ∧
      (tries cfg stream c0 r0 seed n (st, f)).1.placed = st.placed ++ L ∧
      (tries cfg stream c0 r0 seed n (st, f)).1.pos = st.pos + 4 * n ∧
      (tries cfg stream c0 r0 seed n (st, f)).2 = (f || !L.isEmpty) := by
  induction n with
  | zero =>
    intro st f
    exact ⟨[], by simp [tries]⟩
  | succ n ih =>
    intro st f
    simp only [tries]
    by_cases h1 : isInBounds (candidate cfg stream seed st.pos) c0 r0 (numCols cfg)
        (numRows cfg) cfg.bounds
    · by_cases h2 : isAllowedToDraw (candidate cfg stream seed st.pos) (cellSize cfg)
          (numCols cfg) cfg.minDist st.grid (neighborRange cfg)
      · rw [tryOnce_accept h1 h2]
        obtain ⟨L, ha, hp, hpos, hf⟩ := ih _ true
        refine ⟨candidate cfg stream seed st.pos :: L, ?_, ?_, ?_, ?_⟩
        · rw [ha]; simp
        · rw [hp]; simp
        · rw [hpos]; simp; ring
        · rw [hf]; simp
      · rw [tryOnce_reject (Or.inr h2)]
        obtain ⟨L, ha, hp, hpos, hf⟩ := ih { st with pos := st.pos + 4 } f
        refine ⟨L, ha, hp, ?_, hf⟩
        rw [hpos]; simp; ring
    · rw [tryOnce_reject (Or.inl h1)]
      obtain ⟨L, ha, hp, hpos, hf⟩ := ih { st with pos := st.pos + 4 } f
      refine ⟨L, ha, hp, ?_, hf⟩
      rw [hpos]; simp; ring

theorem step_shape (cfg : Config) (stream : ℕ → ℝ) (c0 r0 : ℤ) (st : St)
    (h : st.active ≠ []) :
    ∃ L : List Sample,
      (step cfg stream c0 r0 st).pos = st.pos + 1 + 4 * cfg.maxTries ∧
      (step cfg stream c0 r0 st).placed = st.placed ++ L ∧
      (L = [] → (step cfg stream c0 r0 st).active =
        st.active.eraseIdx (⌊stream st.pos * st.active.length⌋).toNat) ∧
      (L ≠ [] → (step cfg stream c0 r0 st).active = st.active ++ L) := by
  obtain ⟨L, ha, hp, hpos, hf⟩ := tries_shape cfg stream c0 r0
    (pickSeed st.active (stream st.pos)) cfg.maxTries { st with pos := st.pos + 1 } false
  have hstep : step cfg stream c0 r0 st =
      if (tries cfg stream c0 r0 (pickSeed st.active (stream st.pos)) cfg.maxTries
            ({ st with pos := st.pos + 1 }, false)).2
      then (tries cfg stream c0 r0 (pickSeed st.active (stream st.pos)) cfg.maxTries
            ({ st with pos := st.pos + 1 }, false)).1
      else { (tries cfg stream c0 r0 (pickSeed st.active (stream st.pos)) cfg.maxTries
            ({ st with pos := st.pos + 1 }, false)).1 with
          active := (tries cfg stream c0 r0 (pickSeed st.active (stream st.pos)) cfg.maxTries
            ({ st with pos := st.pos + 1 }, false)).1.active.eraseIdx
              (⌊stream st.pos * st.active.length⌋).toNat } := by
    simp only [step, if_neg h]
  simp only [] at ha hp hpos
  rcases eq_or_ne L [] with hL | hL
  · have hf2 : (tries cfg stream c0 r0 (pickSeed st.active (stream st.pos)) cfg.maxTries
        ({ st with pos := st.pos + 1 }, false)).2 = false := by
      rw [hf, hL]; rfl
    rw [hstep, hf2]
    refine ⟨[], ?_, ?_, fun _ => ?_, fun hcon => absurd rfl hcon⟩
    · simp only [if_neg Bool.false_ne_true]
      simp [hpos]
    · simp only [if_neg Bool.false_ne_true]
      simp [hp, hL]
    · simp only [if_neg Bool.false_ne_true]
      simp [ha, hL]
  · have hf2 : (tries cfg stream c0 r0 (pickSeed st.active (stream st.pos)) cfg.maxTries
        ({ st with pos := st.pos + 1 }, false)).2 = true := by
      rw [hf]
      cases L with
      | nil => exact absurd rfl hL
      | cons a t => rfl
    rw [hstep, hf2]
    refine ⟨L, ?_, ?_, fun hcon => absurd hcon hL, fun _ => ?_⟩
    · simp only [if_pos rfl]
      simp [hpos]
    · simp only [if_pos rfl]
      simp [hp]
    · simp only [if_pos rfl]
      simp [ha]

/-- C8: in one outer-loop iteration with a non-empty active list, exactly
maxTries candidate generations are attempted from the chosen seed (the
stream position advances by exactly 1 + 4 maxTries draws: one seed
selection plus four draws per candidate, with no early break on success),
every accepted candidate of the iteration is appended to the active list,
and the seed is spliced out of the active list exactly when no candidate
of the iteration was accepted. -/
theorem growth_iteration_budget (cfg : Config) (stream : ℕ → ℝ) (c0 r0 : ℤ)
    (st : St) (h : st.active ≠ []) :
    ∃ L : List Sample,
      (step cfg stream c0 r0 st).pos = st.pos + 1 + 4 * cfg.maxTries ∧
      (step cfg stream c0 r0 st).placed = st.placed ++ L ∧
      (L = [] → (step cfg stream c0 r0 st).active =
        st.active.eraseIdx (⌊stream st.pos * st.active.length⌋).toNat) ∧
      (L ≠ [] → (step cfg stream c0 r0 st).active = st.active ++ L) :=
  step_shape cfg stream c0 r0 st h

/-- Witness for C8 at a concrete one-element active list. -/
theorem growth_iteration_budget_witness :
    ∃ L : List Sample,
      (step ⟨⟨0, 0, 100, 100⟩, [⟨1⟩], 1, 3, true⟩ (fun _ => 0) 0 0
          ⟨fun _ => none, [dfltSample], [dfltSample], 0⟩).pos = 0 + 1 + 4 * 3 ∧
      (step ⟨⟨0, 0, 100, 100⟩, [⟨1⟩], 1, 3, true⟩ (fun _ => 0) 0 0
          ⟨fun _ => none, [dfltSample], [dfltSample], 0⟩).placed = [dfltSample] ++ L ∧
      (L = [] → (step ⟨⟨0, 0, 100, 100⟩, [⟨1⟩], 1, 3, true⟩ (fun _ => 0) 0 0
          ⟨fun _ => none, [dfltSample], [dfltSample], 0⟩).active =
        [dfltSample].eraseIdx (⌊(fun _ => (0:ℝ)) 0 * ([dfltSample] : List Sample).length⌋).toNat) ∧
      (L ≠ [] → (step ⟨⟨0, 0, 100, 100⟩, [⟨1⟩], 1, 3, true⟩ (fun _ => 0) 0 0
          ⟨fun _ => none, [dfltSample], [dfltSample], 0⟩).active = [dfltSample] ++ L) :=
  growth_iteration_budget ⟨⟨0, 0, 100, 100⟩, [⟨1⟩], 1, 3, true⟩ (fun _ => 0) 0 0
    ⟨fun _ => none, [dfltSample], [dfltSample], 0⟩ (by simp)

/-! ## C9: radius derivation -/

/-- C9: for every created sample the radius is derived once at creation
from the chosen image size: radius = size when isCircle, and radius =
sqrt(2 size^2)/2 = size sqrt 2 / 2 otherwise; getRadiusForSize s equals
s sqrt 2 / 2 for every s >= 0. -/
theorem radius_derivation :
    (∀ s : ℝ, 0 ≤ s → getRadiusForSize s = s * Real.sqrt 2 / 2) ∧
    (∀ (b : Bounds) (img : Image) (c : Bool) (u v : ℝ),
      (createFirstSample b img c u v).radius =
        if c then img.size else getRadiusForSize img.size) ∧
    (∀ (sm : Sample) (images : List Image) (m : ℝ) (c : Bool) (u1 u2 u3 u4 : ℝ),
      (createSampleFromSample sm images m c u1 u2 u3 u4).radius =
        if c then (imageAt images (chosenIndex images u1)).size
        else getRadiusForSize (imageAt images (chosenIndex images u1)).size) := by
  refine ⟨fun s hs => getRadiusForSize_eq hs, fun b img c u v => ?_,
    fun sm images m c u1 u2 u3 u4 => ?_⟩
  · cases c <;> simp [createFirstSample, radiusFor]
  · cases c <;> simp [createSampleFromSample, radiusFor]

/-- Witness for C9 at size 2. -/
theorem radius_derivation_witness : getRadiusForSize 2 = 2 * Real.sqrt 2 / 2 :=
  radius_derivation.1 2 (by norm_num)

/-! ## C7: the annulus property of createSampleFromSample -/

/-- C7: a sample created from seed sm lies at Euclidean distance from sm
within [minDist + size + sm.radius, minDist + size + sm.radius + minDist],
size being the size of the randomly chosen image entry. -/
theorem createSampleFromSample_annulus (sm : Sample) (images : List Image)
    (m : ℝ) (c : Bool) (u1 u2 u3 u4 : ℝ)
    (hm : 0 ≤ m) (hr : 0 ≤ sm.radius) (hne : images ≠ [])
    (hsz : ∀ img ∈ images, 0 ≤ img.size)
    (h10 : 0 ≤ u1) (h11 : u1 < 1) (h30 : 0 ≤ u3) (h31 : u3 < 1)
    (h40 : 0 ≤ u4) (h41 : u4 < 1) :
    m + (imageAt images (chosenIndex images u1)).size + sm.radius ≤
      hypot ((createSampleFromSample sm images m c u1 u2 u3 u4).x - sm.x)
        ((createSampleFromSample sm images m c u1 u2 u3 u4).y - sm.y) ∧
    hypot ((createSampleFromSample sm images m c u1 u2 u3 u4).x - sm.x)
        ((createSampleFromSample sm images m c u1 u2 u3 u4).y - sm.y) ≤
      m + (imageAt images (chosenIndex images u1)).size + sm.radius + m := by
  have hs0 : 0 ≤ (imageAt images (chosenIndex images u1)).size :=
    hsz _ (imageAt_chosen_mem hne h10 h11)
  set size := (imageAt images (chosenIndex images u1)).size with hsizedef
  set θ := u2 * Real.pi * 2 with hθ
  set minR := m + size + sm.radius with hminRdef
  have hminR : 0 ≤ minR := by simp only [hminRdef]; linarith
  have hx : (createSampleFromSample sm images m c u1 u2 u3 u4).x - sm.x =
      Real.cos θ * clampRandom u3 minR (minR + m) := by
    simp only [createSampleFromSample, hθ, hminRdef, hsizedef]
    ring
  have hy : (createSampleFromSample sm images m c u1 u2 u3 u4).y - sm.y =
      Real.sin θ * clampRandom u4 minR (minR + m) := by
    simp only [createSampleFromSample, hθ, hminRdef, hsizedef]
    ring
  obtain ⟨hd1l, hd1u⟩ := @clampRandom_mem u3 minR (minR + m) h30 h31.le (by linarith)
  obtain ⟨hd2l, hd2u⟩ := @clampRandom_mem u4 minR (minR + m) h40 h41.le (by linarith)
  set d1 := clampRandom u3 minR (minR + m)
  set d2 := clampRandom u4 minR (minR + m)
  have hpyth := Real.sin_sq_add_cos_sq θ
  obtain ⟨hlow, hhigh⟩ := @annulus_core (Real.cos θ) (Real.sin θ)
    d1 d2 minR (minR + m) hpyth hminR hd1l hd1u hd2l hd2u
  constructor
  · rw [hx, hy]
    exact (le_hypot_iff hminR).mpr hlow
  · rw [hx, hy]
    exact (hypot_le_iff (by linarith)).mpr hhigh

/-- Witness for C7: seed at the origin with radius 0, one image of size 1,
minDist 1, all draws 0; the child lands at distance 2, inside [2, 3]. -/
theorem createSampleFromSample_annulus_witness :
    1 + (imageAt [⟨1⟩] (chosenIndex [⟨1⟩] 0)).size + (Sample.mk 0 0 0 0).radius ≤
      hypot ((createSampleFromSample ⟨0, 0, 0, 0⟩ [⟨1⟩] 1 true 0 0 0 0).x - (Sample.mk 0 0 0 0).x)
        ((createSampleFromSample ⟨0, 0, 0, 0⟩ [⟨1⟩] 1 true 0 0 0 0).y - (Sample.mk 0 0 0 0).y) ∧
    hypot ((createSampleFromSample ⟨0, 0, 0, 0⟩ [⟨1⟩] 1 true 0 0 0 0).x - (Sample.mk 0 0 0 0).x)
        ((createSampleFromSample ⟨0, 0, 0, 0⟩ [⟨1⟩] 1 true 0 0 0 0).y - (Sample.mk 0 0 0 0).y) ≤
      1 + (imageAt [⟨1⟩] (chosenIndex [⟨1⟩] 0)).size + (Sample.mk 0 0 0 0).radius + 1 :=
  createSampleFromSample_annulus ⟨0, 0, 0, 0⟩ [⟨1⟩] 1 true 0 0 0 0
    (by norm_num) (by norm_num) (by simp)
    (by intro img hmem; simp at hmem; simp [hmem])
    (by norm_num) (by norm_num) (by norm_num) (by norm_num) (by norm_num) (by norm_num)

/-! ## C4: degenerate bounds and the early empty return -/

/-- C4: degenerate bounds (width or height non-positive) make the first
sample fail the in-bounds test, and whenever the first sample fails that
test the sampler returns the empty result with no loop iteration ever
examined (the result does not depend on the fuel). -/
theorem degenerate_bounds_empty (cfg : Config) (stream : ℕ → ℝ)
    (hne : cfg.images ≠ []) (hsz : ∀ img ∈ cfg.images, 0 < img.size) :
    ((cfg.bounds.width ≤ 0 ∨ cfg.bounds.height ≤ 0) → ¬ firstSampleOk cfg stream) ∧
    (¬ firstSampleOk cfg stream →
      ∀ fuel, poissonImageSampler cfg stream fuel = some ([], fun _ => none)) := by
  have hmem : cfg.images.getD 0 ⟨0⟩ ∈ cfg.images := by
    cases h : cfg.images with
    | nil => exact absurd h hne
    | cons a t => simp [List.getD]
  have hr : 0 < (firstSample cfg stream).radius := by
    simp only [firstSample, createFirstSample]
    exact radiusFor_pos _ (hsz _ hmem)
  constructor
  · rintro h hok
    obtain ⟨_, _, hx1, hx2, hy1, hy2⟩ := hok
    rcases h with h | h
    · linarith
    · linarith
  · intro hnot fuel
    simp [poissonImageSampler, hnot]

/-! ## The run invariant -/

theorem inRect_of_isInBounds {cfg : Config} {s : Sample} {col row : ℤ}
    (h : isInBounds s col row (numCols cfg) (numRows cfg) cfg.bounds) : InRect cfg s :=
  ⟨h.2.2.1, h.2.2.2.1, h.2.2.2.2.1, h.2.2.2.2.2⟩

theorem candidate_wf {cfg : Config} {stream : ℕ → ℝ} (hv : validConfig cfg)
    (hs : validStream stream) (seed : Sample) (p : ℕ) :
    SampleWf cfg (candidate cfg stream seed p) := by
  have hne := hv.2.2.1
  obtain ⟨h0, h1⟩ := hs p
  refine ⟨⟨imageAt cfg.images (chosenIndex cfg.images (stream p)),
    imageAt_chosen_mem hne h0 h1, ?_⟩, ?_, ?_⟩
  · simp [candidate, createSampleFromSample]
  · exact chosenIndex_nonneg h0
  · exact chosenIndex_lt hne h0 h1

theorem tryOnce_inv {cfg : Config} {stream : ℕ → ℝ} (hv : validConfig cfg)
    (hs : validStream stream) {c0 r0 : ℤ} (seed : Sample) (st : St) (f : Bool)
    (hInv : Inv cfg st) : Inv cfg (tryOnce cfg stream c0 r0 seed (st, f)).1 := by
  obtain ⟨hcons, hsub, hplaced, hact, hspace⟩ := hInv
  by_cases h1 : isInBounds (candidate cfg stream seed st.pos) c0 r0 (numCols cfg)
      (numRows cfg) cfg.bounds
  swap
  · rw [tryOnce_reject (Or.inl h1)]
    exact ⟨hcons, hsub, hplaced, hact, hspace⟩
  by_cases h2 : isAllowedToDraw (candidate cfg stream seed st.pos) (cellSize cfg)
      (numCols cfg) cfg.minDist st.grid (neighborRange cfg)
  swap
  · rw [tryOnce_reject (Or.inr h2)]
    exact ⟨hcons, hsub, hplaced, hact, hspace⟩
  rw [tryOnce_accept h1 h2]
  have hcwf : SampleWf cfg (candidate cfg stream seed st.pos) := candidate_wf hv hs seed st.pos
  have hspc := spacing_of_allowed hv hcons (fun k s hk => (hplaced s (hsub k s hk)).1) hcwf h2
  refine ⟨?_, ?_, ?_, ?_, ?_⟩
  · intro k s hk
    simp only [insertGrid] at hk
    split_ifs at hk with hkk
    · obtain rfl := Option.some.inj hk
      exact hkk
    · exact hcons k s hk
  · intro k s hk
    simp only [insertGrid] at hk
    split_ifs at hk with hkk
    · obtain rfl := Option.some.inj hk
      simp
    · exact List.mem_append_left _ (hsub k s hk)
  · intro s hsmem
    rcases List.mem_append.mp hsmem with h | h
    · exact hplaced s h
    · obtain rfl := List.mem_singleton.mp h
      exact ⟨hcwf, inRect_of_isInBounds h1⟩
  · intro s hsmem
    rcases List.mem_append.mp hsmem with h | h
    · exact List.mem_append_left _ (hact s h)
    · exact List.mem_append_right _ h
  · intro k1 k2 s1 s2 hk1 hk2 hne
    simp only [insertGrid] at hk1 hk2
    split_ifs at hk1 hk2 with e1 e2 e2
    · obtain rfl := Option.some.inj hk1
      obtain rfl := Option.some.inj hk2
      exact absurd (e1.trans e2.symm) hne
    · obtain rfl := Option.some.inj hk1
      exact hspc k2 s2 hk2
    · obtain rfl := Option.some.inj hk2
      have h := hspc k1 s1 hk1
      rw [hypot_sub_comm] at h
      linarith
    · exact hspace k1 k2 s1 s2 hk1 hk2 hne

theorem tries_inv {cfg : Config} {stream : ℕ → ℝ} (hv : validConfig cfg)
    (hs : validStream stream) {c0 r0 : ℤ} (seed : Sample) (n : ℕ) :
    ∀ (st : St) (f : Bool), Inv cfg st → Inv cfg (tries cfg stream c0 r0 seed n (st, f)).1 := by
  induction n with
  | zero =>
    intro st f h
    simpa [tries] using h
  | succ n ih =>
    intro st f h
    simp only [tries]
    exact ih _ _ (tryOnce_inv hv hs seed st f h)

theorem step_inv {cfg : Config} {stream : ℕ → ℝ} (hv : validConfig cfg)
    (hs : validStream stream) {c0 r0 : ℤ} (st : St) (hInv : Inv cfg st) :
    Inv cfg (step cfg stream c0 r0 st) := by
  by_cases h : st.active = []
  · simpa [step, h] using hInv
  · simp only [step, if_neg h]
    have hInv' : Inv cfg (tries cfg stream c0 r0 (pickSeed st.active (stream st.pos))
        cfg.maxTries ({ st with pos := st.pos + 1 }, false)).1 :=
      tries_inv hv hs _ cfg.maxTries _ false hInv
    obtain ⟨i1, i2, i3, i4, i5⟩ := hInv'
    split_ifs with hb
    · exact ⟨i1, i2, i3, i4, i5⟩
    · exact ⟨i1, i2, i3, fun s hsmem => i4 s (List.mem_of_mem_eraseIdx hsmem), i5⟩

theorem init_inv {cfg : Config} {stream : ℕ → ℝ} (hv : validConfig cfg)
    (hok : firstSampleOk cfg stream) : Inv cfg (initState cfg stream) := by
  have hne := hv.2.2.1
  have hmem : cfg.images.getD 0 ⟨0⟩ ∈ cfg.images := by
    cases h : cfg.images with
    | nil => exact absurd h hne
    | cons a t => simp [List.getD]
  have hwf : SampleWf cfg (firstSample cfg stream) := by
    refine ⟨⟨cfg.images.getD 0 ⟨0⟩, hmem, by simp [firstSample, createFirstSample]⟩, ?_, ?_⟩
    · simp [firstSample, createFirstSample]
    · have : 0 < cfg.images.length := List.length_pos.mpr hne
      simp only [firstSample, createFirstSample]
      exact_mod_cast this
  have hrect : InRect cfg (firstSample cfg stream) := inRect_of_isInBounds hok
  refine ⟨?_, ?_, ?_, ?_, ?_⟩
  · intro k s hk
    simp only [initState, insertGrid] at hk
    split_ifs at hk with hkk
    obtain rfl := Option.some.inj hk
    exact hkk
  · intro k s hk
    simp only [initState, insertGrid] at hk
    split_ifs at hk with hkk
    obtain rfl := Option.some.inj hk
    simp [initState]
  · intro s hsmem
    simp only [initState, List.mem_singleton] at hsmem
    subst hsmem
    exact ⟨hwf, hrect⟩
  · intro s hsmem
    simpa [initState] using hsmem
  · intro k1 k2 s1 s2 hk1 hk2 hne12
    simp only [initState, insertGrid] at hk1 hk2
    split_ifs at hk1 hk2 with e1 e2
    exact absurd (e1.trans e2.symm) hne12

theorem runState_inv {cfg : Config} {stream : ℕ → ℝ} (hv : validConfig cfg)
    (hs : validStream stream) (hok : firstSampleOk cfg stream) (n : ℕ) :
    Inv cfg (runState cfg stream n) := by
  induction n with
  | zero => exact init_inv hv hok
  | succ n ih => exact step_inv hv hs _ ih

theorem placed_first (cfg : Config) (stream : ℕ → ℝ) (n : ℕ) :
    ∃ t, (runState cfg stream n).placed = firstSample cfg stream :: t := by
  induction n with
  | zero => exact ⟨[], rfl⟩
  | succ n ih =>
    obtain ⟨t, ht⟩ := ih
    by_cases h : (runState cfg stream n).active = []
    · refine ⟨t, ?_⟩
      simp only [runState, step, if_pos h]
      exact ht
    · obtain ⟨L, -, hp, -, -⟩ := step_shape cfg stream (col0 cfg stream) (row0 cfg stream) _ h
      refine ⟨t ++ L, ?_⟩
      simp only [runState, hp, ht]
      simp

/-- Decomposition of a completed sampler run: either the loop ran to an
empty active list, or the early empty return fired. -/
theorem sampler_cases {cfg : Config} {stream : ℕ → ℝ} {fuel : ℕ}
    {pl : List Sample} {g : ℤ → Option Sample}
    (hrun : poissonImageSampler cfg stream fuel = some (pl, g)) :
    (firstSampleOk cfg stream ∧ (runState cfg stream fuel).active = [] ∧
      pl = (runState cfg stream fuel).placed ∧ g = (runState cfg stream fuel).grid) ∨
    (¬ firstSampleOk cfg stream ∧ pl = [] ∧ g = fun _ => none) := by
  simp only [poissonImageSampler] at hrun
  by_cases hok : firstSampleOk cfg stream
  · rw [if_pos hok] at hrun
    by_cases hterm : (runState cfg stream fuel).active = []
    · rw [if_pos hterm] at hrun
      simp only [Option.some.injEq, Prod.mk.injEq] at hrun
      exact Or.inl ⟨hok, hterm, hrun.1.symm, hrun.2.symm⟩
    · rw [if_neg hterm] at hrun
      exact absurd hrun (by simp)
  · rw [if_neg hok] at hrun
    simp only [Option.some.injEq, Prod.mk.injEq] at hrun
    exact Or.inr ⟨hok, hrun.1.symm, hrun.2.symm⟩

/-! ## C1: the spacing invariant of the returned grid -/

/-- C1: for every invocation on validated inputs and every draw sequence,
any two distinct samples present in the returned grid are at Euclidean
distance at least minDist + radius A + radius B. -/
theorem spacing_invariant (cfg : Config) (stream : ℕ → ℝ) (fuel : ℕ)
    (hv : validConfig cfg) (hs : validStream stream)
    (pl : List Sample) (g : ℤ → Option Sample)
    (hrun : poissonImageSampler cfg stream fuel = some (pl, g))
    (k1 k2 : ℤ) (s1 s2 : Sample)
    (h1 : g k1 = some s1) (h2 : g k2 = some s2) (hne : s1 ≠ s2) :
    cfg.minDist + s1.radius + s2.radius ≤ hypot (s2.x - s1.x) (s2.y - s1.y) := by
  rcases sampler_cases hrun with ⟨hok, -, -, hg⟩ | ⟨-, -, hg⟩
  · subst hg
    have hInv := runState_inv hv hs hok fuel
    have hkk : k1 ≠ k2 := by
      rintro rfl
      rw [h1] at h2
      exact hne (Option.some.inj h2)
    exact hInv.2.2.2.2 k1 k2 s1 s2 h1 h2 hkk
  · subst hg
    simp at h1

/-! ## C10: index fields are valid image positions -/

/-- C10: every sample in the returned grid has an integer index field with
0 <= index < images.length, and the initial seed sample has index 0 with
its radius derived from the first image entry's size. -/
theorem sample_index_valid (cfg : Config) (stream : ℕ → ℝ) (fuel : ℕ)
    (hv : validConfig cfg) (hs : validStream stream)
    (pl : List Sample) (g : ℤ → Option Sample)
    (hrun : poissonImageSampler cfg stream fuel = some (pl, g)) :
    (∀ k s, g k = some s → 0 ≤ s.index ∧ s.index < (cfg.images.length : ℤ)) ∧
    (∀ s0, pl.head? = some s0 → s0.index = 0 ∧
      s0.radius = radiusFor cfg.isCircle (cfg.images.getD 0 ⟨0⟩).size) := by
  rcases sampler_cases hrun with ⟨hok, -, hpl, hg⟩ | ⟨-, hpl, hg⟩
  · subst hpl
    subst hg
    have hInv := runState_inv hv hs hok fuel
    constructor
    · intro k s hk
      exact (hInv.2.2.1 s (hInv.2.1 k s hk)).1.2
    · intro s0 hhead
      obtain ⟨t, ht⟩ := placed_first cfg stream fuel
      rw [ht] at hhead
      simp only [List.head?_cons, Option.some.injEq] at hhead
      subst hhead
      exact ⟨rfl, rfl⟩
  · subst hpl
    subst hg
    exact ⟨fun k s hk => by simp at hk, fun s0 hhead => by simp at hhead⟩

/-! ## C3 (amended): the grid index formula -/

/-- C3 as amended: every accepted sample is stored at the flat index
floor(x/cellSize) + floor(y/cellSize) numCols (every occupied slot is the
occupant's own getIndexInGrid position), and that index is non-negative;
the claimed upper bound numCols numRows and freedom from collisions do
not hold (see the counterexample). -/
theorem grid_index_amended (cfg : Config) (stream : ℕ → ℝ) (fuel : ℕ)
    (hv : validConfig cfg) (hs : validStream stream)
    (pl : List Sample) (g : ℤ → Option Sample)
    (hrun : poissonImageSampler cfg stream fuel = some (pl, g)) :
    (∀ k s, g k = some s → k = getIndexInGrid s (cellSize cfg) (numCols cfg)) ∧
    (∀ s ∈ pl, 0 ≤ getIndexInGrid s (cellSize cfg) (numCols cfg)) := by
  rcases sampler_cases hrun with ⟨hok, -, hpl, hg⟩ | ⟨-, hpl, hg⟩
  · subst hpl
    subst hg
    have hInv := runState_inv hv hs hok fuel
    refine ⟨hInv.1, ?_⟩
    intro s hsmem
    obtain ⟨hwf, hrect⟩ := hInv.2.2.1 s hsmem
    have hcs := cellSize_pos hv
    have hr := radius_pos hv hwf
    have hx : 0 ≤ s.x := by
      have := hrect.1
      linarith
    have hy : 0 ≤ s.y := by
      have := hrect.2.2.1
      linarith
    have hcol : 0 ≤ ⌊s.x / cellSize cfg⌋ := Int.floor_nonneg.mpr (by positivity)
    have hrow : 0 ≤ ⌊s.y / cellSize cfg⌋ := Int.floor_nonneg.mpr (by positivity)
    have hcols := numCols_nonneg hv
    unfold getIndexInGrid
    have := mul_nonneg hrow hcols
    omega
  · subst hpl
    subst hg
    exact ⟨fun k s hk => by simp at hk, fun s hsmem => by simp at hsmem⟩

/-- Witness for C4: zero-extent bounds with one image of size 1 give the
empty result at fuel 0. -/
theorem degenerate_bounds_empty_witness :
    poissonImageSampler ⟨⟨0, 0, 0, 0⟩, [⟨1⟩], 0, 1, true⟩ (fun _ => 0) 0 =
      some ([], fun _ => none) := by
  have h := degenerate_bounds_empty ⟨⟨0, 0, 0, 0⟩, [⟨1⟩], 0, 1, true⟩ (fun _ => 0)
    (by simp) (by intro img hmem; simp at hmem; simp [hmem])
  exact h.2 (h.1 (Or.inl le_rfl)) 0

/-! ## Evaluation helpers for runs with maxTries = 1 -/

theorem hypot_x {a : ℝ} (h : 0 ≤ a) : hypot a 0 = a := by
  unfold hypot
  rw [show a ^ 2 + 0 ^ 2 = a ^ 2 by ring, Real.sqrt_sq h]

theorem step_one_accept {cfg : Config} {stream : ℕ → ℝ} {c0 r0 : ℤ} {st : St}
    (hmax : cfg.maxTries = 1) (h : st.active ≠ [])
    (h1 : isInBounds (candidate cfg stream (pickSeed st.active (stream st.pos)) (st.pos + 1))
      c0 r0 (numCols cfg) (numRows cfg) cfg.bounds)
    (h2 : isAllowedToDraw (candidate cfg stream (pickSeed st.active (stream st.pos)) (st.pos + 1))
      (cellSize cfg) (numCols cfg) cfg.minDist st.grid (neighborRange cfg)) :
    step cfg stream c0 r0 st =
      ⟨insertGrid st.grid
          (getIndexInGrid (candidate cfg stream (pickSeed st.active (stream st.pos)) (st.pos + 1))
            (cellSize cfg) (numCols cfg))
          (candidate cfg stream (pickSeed st.active (stream st.pos)) (st.pos + 1)),
        st.active ++ [candidate cfg stream (pickSeed st.active (stream st.pos)) (st.pos + 1)],
        st.placed ++ [candidate cfg stream (pickSeed st.active (stream st.pos)) (st.pos + 1)],
        st.pos + 1 + 4⟩ := by
  have ht : tries cfg stream c0 r0 (pickSeed st.active (stream st.pos)) cfg.maxTries
      ({ st with pos := st.pos + 1 }, false) =
      (⟨insertGrid st.grid
          (getIndexInGrid (candidate cfg stream (pickSeed st.active (stream st.pos)) (st.pos + 1))
            (cellSize cfg) (numCols cfg))
          (candidate cfg stream (pickSeed st.active (stream st.pos)) (st.pos + 1)),
        st.active ++ [candidate cfg stream (pickSeed st.active (stream st.pos)) (st.pos + 1)],
        st.placed ++ [candidate cfg stream (pickSeed st.active (stream st.pos)) (st.pos + 1)],
        st.pos + 1 + 4⟩, true) := by
    rw [hmax]
    show tries cfg stream c0 r0 (pickSeed st.active (stream st.pos)) (0 + 1)
        ({ st with pos := st.pos + 1 }, false) = _
    rw [tries, tries]
    have he := @tryOnce_accept cfg stream c0 r0 (pickSeed st.active (stream st.pos))
      { st with pos := st.pos + 1 } false h1 h2
    rw [he]
  simp only [step, if_neg h, ht]
  simp

theorem step_one_reject {cfg : Config} {stream : ℕ → ℝ} {c0 r0 : ℤ} {st : St}
    (hmax : cfg.maxTries = 1) (h : st.active ≠ [])
    (hrej : ¬ isInBounds (candidate cfg stream (pickSeed st.active (stream st.pos)) (st.pos + 1))
        c0 r0 (numCols cfg) (numRows cfg) cfg.bounds ∨
      ¬ isAllowedToDraw (candidate cfg stream (pickSeed st.active (stream st.pos)) (st.pos + 1))
        (cellSize cfg) (numCols cfg) cfg.minDist st.grid (neighborRange cfg)) :
    step cfg stream c0 r0 st =
      ⟨st.grid, st.active.eraseIdx (⌊stream st.pos * st.active.length⌋).toNat,
        st.placed, st.pos + 1 + 4⟩ := by
  have ht : tries cfg stream c0 r0 (pickSeed st.active (stream st.pos)) cfg.maxTries
      ({ st with pos := st.pos + 1 }, false) =
      ({ st with pos := st.pos + 1 + 4 }, false) := by
    rw [hmax]
    show tries cfg stream c0 r0 (pickSeed st.active (stream st.pos)) (0 + 1)
        ({ st with pos := st.pos + 1 }, false) = _
    rw [tries, tries]
    have he := @tryOnce_reject cfg stream c0 r0 (pickSeed st.active (stream st.pos))
      { st with pos := st.pos + 1 } false hrej
    rw [he]
  simp only [step, if_neg h, ht]
  simp

/-! ## Run R1: evaluation -/

theorem R1_valid : validConfig cfgR1 := by
  refine ⟨by norm_num [cfgR1], by norm_num [cfgR1], by simp [cfgR1], ?_, ?_, by norm_num [cfgR1]⟩
  · intro img hmem
    simp [cfgR1] at hmem
    simp [hmem]
  · simp only [cfgR1]
    nlinarith [sqrt2_lb]

theorem R1_stream_valid : validStream streamR1 := by
  intro n
  unfold streamR1
  split_ifs <;> norm_num

theorem R1_cellSize : cellSize cfgR1 = 10 := by
  unfold cellSize cfgR1 minSize
  simp only [List.foldl_nil]
  rw [show (10 * Real.sqrt 2 - 2 + 1 * 2) = 10 * Real.sqrt 2 by ring, mul_div_assoc,
    div_self sqrt2_pos.ne.symm, mul_one]

theorem R1_numCols : numCols cfgR1 = 4 := by
  unfold numCols
  rw [R1_cellSize]
  norm_num [cfgR1]

theorem R1_numRows : numRows cfgR1 = 4 := by
  unfold numRows
  rw [R1_cellSize]
  norm_num [cfgR1]

theorem R1_range : neighborRange cfgR1 = 2 := by
  unfold neighborRange
  rw [R1_cellSize]
  have h1 : (cfgR1.minDist + maxSize cfgR1.images * 2) / 10 = Real.sqrt 2 := by
    simp only [cfgR1, maxSize, List.foldl_nil]
    ring
  rw [h1, Int.ceil_eq_iff]
  constructor
  · push_cast
    nlinarith [sqrt2_lb]
  · push_cast
    nlinarith [sqrt2_ub]

theorem R1_first : firstSample cfgR1 streamR1 = S0R1 := by
  unfold firstSample createFirstSample clampRandom
  simp only [cfgR1, streamR1, S0R1, radiusFor]
  norm_num

theorem R1_col0 : col0 cfgR1 streamR1 = 2 := by
  unfold col0
  rw [R1_first, R1_cellSize]
  norm_num [S0R1]

theorem R1_row0 : row0 cfgR1 streamR1 = 2 := by
  unfold row0
  rw [R1_first, R1_cellSize]
  norm_num [S0R1]

theorem R1_firstOk : firstSampleOk cfgR1 streamR1 := by
  unfold firstSampleOk
  rw [R1_first, R1_col0, R1_row0, R1_numCols, R1_numRows]
  exact ⟨by norm_num, by norm_num, by norm_num [S0R1, cfgR1], by norm_num [S0R1, cfgR1],
    by norm_num [S0R1, cfgR1], by norm_num [S0R1, cfgR1]⟩

theorem R1_idx0 : getIndexInGrid S0R1 (cellSize cfgR1) (numCols cfgR1) = 10 := by
  rw [R1_cellSize, R1_numCols]
  unfold getIndexInGrid
  norm_num [S0R1]

theorem R1_init : runState cfgR1 streamR1 0 = ⟨gR1a, [S0R1], [S0R1], 2⟩ := by
  show initState cfgR1 streamR1 = _
  simp only [initState]
  rw [R1_first, R1_idx0]
  rfl

theorem R1_idx1 : getIndexInGrid S1R1 (cellSize cfgR1) (numCols cfgR1) = 9 := by
  rw [R1_cellSize, R1_numCols]
  unfold getIndexInGrid
  have hcol : ⌊S1R1.x / 10⌋ = 1 := by
    rw [Int.floor_eq_iff]
    constructor
    · rw [le_div_iff (by norm_num : (0:ℝ) < 10)]
      simp only [S1R1]
      push_cast
      nlinarith [sqrt2_ub]
    · rw [div_lt_iff (by norm_num : (0:ℝ) < 10)]
      simp only [S1R1]
      push_cast
      nlinarith [sqrt2_lb]
  have hrow : ⌊S1R1.y / 10⌋ = 2 := by
    norm_num [S1R1]
  rw [hcol, hrow]
  norm_num

theorem candidate_eval {cfg : Config} {stream : ℕ → ℝ} {seed : Sample} {p : ℕ}
    {u1 u2 u3 u4 co si sz d1 d2 : ℝ} {k : ℤ}
    (h1 : stream p = u1) (h2 : stream (p + 1) = u2)
    (h3 : stream (p + 2) = u3) (h4 : stream (p + 3) = u4)
    (hk : chosenIndex cfg.images u1 = k)
    (hsz : (imageAt cfg.images k).size = sz)
    (hco : Real.cos (u2 * Real.pi * 2) = co)
    (hsi : Real.sin (u2 * Real.pi * 2) = si)
    (hd1 : clampRandom u3 (cfg.minDist + sz + seed.radius)
      (cfg.minDist + sz + seed.radius + cfg.minDist) = d1)
    (hd2 : clampRandom u4 (cfg.minDist + sz + seed.radius)
      (cfg.minDist + sz + seed.radius + cfg.minDist) = d2) :
    candidate cfg stream seed p =
      ⟨seed.x + co * d1, seed.y + si * d2, radiusFor cfg.isCircle sz, k⟩ := by
  simp only [candidate, createSampleFromSample]
  rw [h1, h2, h3, h4, hk, hsz, hco, hsi, hd1, hd2]

theorem R1_cand1 : candidate cfgR1 streamR1 S0R1 3 = S1R1 := by
  have h := @candidate_eval cfgR1 streamR1 S0R1 3
    0 (1 / 2) 0 0 (-1) 0 1
    (10 * Real.sqrt 2) (10 * Real.sqrt 2) 0
    (by norm_num [streamR1]) (by norm_num [streamR1]) (by norm_num [streamR1])
    (by norm_num [streamR1])
    (by norm_num [chosenIndex, cfgR1])
    (by norm_num [imageAt, cfgR1])
    (by rw [show (1:ℝ) / 2 * Real.pi * 2 = Real.pi by ring, Real.cos_pi])
    (by rw [show (1:ℝ) / 2 * Real.pi * 2 = Real.pi by ring, Real.sin_pi])
    (by unfold clampRandom; simp only [cfgR1, S0R1]; ring)
    (by unfold clampRandom; simp only [cfgR1, S0R1]; ring)
  rw [h]
  simp only [S0R1, S1R1, cfgR1, radiusFor, if_pos, Sample.mk.injEq]
  norm_num
  ring

theorem R1_step1 : runState cfgR1 streamR1 1 = ⟨gR1, [S0R1, S1R1], [S0R1, S1R1], 7⟩ := by
  show step cfgR1 streamR1 (col0 cfgR1 streamR1) (row0 cfgR1 streamR1) (runState cfgR1 streamR1 0) = _
  rw [R1_init]
  have hseed : pickSeed ([S0R1] : List Sample) (streamR1 2) = S0R1 := by
    norm_num [pickSeed, streamR1]
  have hcand : candidate cfgR1 streamR1 (pickSeed ([S0R1] : List Sample) (streamR1 2)) (2 + 1) =
      S1R1 := by
    rw [hseed]
    exact R1_cand1
  have hb : isInBounds (candidate cfgR1 streamR1 (pickSeed ([S0R1] : List Sample) (streamR1 2)) (2 + 1))
      (col0 cfgR1 streamR1) (row0 cfgR1 streamR1) (numCols cfgR1) (numRows cfgR1) cfgR1.bounds := by
    rw [hcand, R1_col0, R1_row0, R1_numCols, R1_numRows]
    refine ⟨by norm_num, by norm_num, ?_, ?_, ?_, ?_⟩
    · simp only [S1R1]
      nlinarith [sqrt2_ub]
    · simp only [S1R1, cfgR1]
      nlinarith [sqrt2_lb]
    · norm_num [S1R1]
    · norm_num [S1R1, cfgR1]
  have ha : isAllowedToDraw (candidate cfgR1 streamR1 (pickSeed ([S0R1] : List Sample) (streamR1 2)) (2 + 1))
      (cellSize cfgR1) (numCols cfgR1) cfgR1.minDist gR1a (neighborRange cfgR1) := by
    rw [hcand]
    intro i j hi1 hi2 hj1 hj2 nb hnb
    simp only [gR1a, insertGrid] at hnb
    split_ifs at hnb with he
    obtain rfl := (Option.some.inj hnb).symm
    have hx : S0R1.x - S1R1.x = 10 * Real.sqrt 2 := by
      simp only [S0R1, S1R1]
      ring
    have hy : S0R1.y - S1R1.y = 0 := by
      simp only [S0R1, S1R1]
      ring
    rw [hx, hy, hypot_x (by positivity)]
    have hth : cfgR1.minDist + S1R1.radius + S0R1.radius = 10 * Real.sqrt 2 := by
      simp only [S0R1, S1R1, cfgR1]
      ring
    rw [hth]
    exact lt_irrefl _
  rw [step_one_accept rfl (by simp) hb ha, hcand, R1_idx1]
  simp [gR1]

theorem R1_cand2 : candidate cfgR1 streamR1 S0R1 8 = ⟨25 + 10 * Real.sqrt 2, 20, 1, 0⟩ := by
  have h := @candidate_eval cfgR1 streamR1 S0R1 8
    0 0 0 0 1 0 1
    (10 * Real.sqrt 2) (10 * Real.sqrt 2) 0
    (by norm_num [streamR1]) (by norm_num [streamR1]) (by norm_num [streamR1])
    (by norm_num [streamR1])
    (by norm_num [chosenIndex, cfgR1])
    (by norm_num [imageAt, cfgR1])
    (by rw [show (0:ℝ) * Real.pi * 2 = 0 by ring, Real.cos_zero])
    (by rw [show (0:ℝ) * Real.pi * 2 = 0 by ring, Real.sin_zero])
    (by unfold clampRandom; simp only [cfgR1, S0R1]; ring)
    (by unfold clampRandom; simp only [cfgR1, S0R1]; ring)
  rw [h]
  simp only [S0R1, cfgR1, radiusFor, if_pos, Sample.mk.injEq]
  norm_num

theorem R1_step2 : runState cfgR1 streamR1 2 = ⟨gR1, [S1R1], [S0R1, S1R1], 12⟩ := by
  show step cfgR1 streamR1 (col0 cfgR1 streamR1) (row0 cfgR1 streamR1) (runState cfgR1 streamR1 1) = _
  rw [R1_step1]
  have hseed : pickSeed ([S0R1, S1R1] : List Sample) (streamR1 7) = S0R1 := by
    norm_num [pickSeed, streamR1]
  have hcand : candidate cfgR1 streamR1 (pickSeed ([S0R1, S1R1] : List Sample) (streamR1 7)) (7 + 1) =
      ⟨25 + 10 * Real.sqrt 2, 20, 1, 0⟩ := by
    rw [hseed]
    exact R1_cand2
  have hrej : ¬ isInBounds
      (candidate cfgR1 streamR1 (pickSeed ([S0R1, S1R1] : List Sample) (streamR1 7)) (7 + 1))
      (col0 cfgR1 streamR1) (row0 cfgR1 streamR1) (numCols cfgR1) (numRows cfgR1) cfgR1.bounds := by
    rw [hcand]
    intro hcon
    have hxr := hcon.2.2.2.1
    simp only [cfgR1] at hxr
    nlinarith [sqrt2_lb]
  rw [step_one_reject rfl (by simp) (Or.inl hrej)]
  have hfloor : (⌊streamR1 7 * (([S0R1, S1R1] : List Sample).length : ℝ)⌋).toNat = 0 := by
    norm_num [streamR1]
  rw [hfloor]
  rfl

theorem R1_cand3 : candidate cfgR1 streamR1 S1R1 13 = S0R1 := by
  have h := @candidate_eval cfgR1 streamR1 S1R1 13
    0 0 0 0 1 0 1
    (10 * Real.sqrt 2) (10 * Real.sqrt 2) 0
    (by norm_num [streamR1]) (by norm_num [streamR1]) (by norm_num [streamR1])
    (by norm_num [streamR1])
    (by norm_num [chosenIndex, cfgR1])
    (by norm_num [imageAt, cfgR1])
    (by rw [show (0:ℝ) * Real.pi * 2 = 0 by ring, Real.cos_zero])
    (by rw [show (0:ℝ) * Real.pi * 2 = 0 by ring, Real.sin_zero])
    (by unfold clampRandom; simp only [cfgR1, S1R1]; ring)
    (by unfold clampRandom; simp only [cfgR1, S1R1]; ring)
  rw [h]
  simp only [S0R1, S1R1, cfgR1, radiusFor, if_pos, Sample.mk.injEq]
  norm_num

theorem R1_step3 : runState cfgR1 streamR1 3 = ⟨gR1, [], [S0R1, S1R1], 17⟩ := by
  show step cfgR1 streamR1 (col0 cfgR1 streamR1) (row0 cfgR1 streamR1) (runState cfgR1 streamR1 2) = _
  rw [R1_step2]
  have hseed : pickSeed ([S1R1] : List Sample) (streamR1 12) = S1R1 := by
    norm_num [pickSeed, streamR1]
  have hcand : candidate cfgR1 streamR1 (pickSeed ([S1R1] : List Sample) (streamR1 12)) (12 + 1) =
      S0R1 := by
    rw [hseed]
    exact R1_cand3
  have hrej : ¬ isAllowedToDraw
      (candidate cfgR1 streamR1 (pickSeed ([S1R1] : List Sample) (streamR1 12)) (12 + 1))
      (cellSize cfgR1) (numCols cfgR1) cfgR1.minDist gR1 (neighborRange cfgR1) := by
    rw [hcand, R1_cellSize, R1_numCols, R1_range]
    intro hallow
    have h00 := hallow 0 0 (by norm_num) (by norm_num) (by norm_num) (by norm_num) S0R1
    have hkey : ⌊S0R1.x / (10:ℝ)⌋ + 0 + (⌊S0R1.y / (10:ℝ)⌋ + 0) * 4 = (10 : ℤ) := by
      norm_num [S0R1]
    rw [hkey] at h00
    have hlook : gR1 10 = some S0R1 := by
      norm_num [gR1, gR1a, insertGrid]
    have hcon := h00 hlook
    apply hcon
    have hx : S0R1.x - S0R1.x = 0 := by ring
    have hy : S0R1.y - S0R1.y = 0 := by ring
    rw [hx, hy, hypot_x le_rfl]
    simp only [S0R1, cfgR1]
    nlinarith [sqrt2_lb]
  rw [step_one_reject rfl (by simp) (Or.inr hrej)]
  have hfloor : (⌊streamR1 12 * (([S1R1] : List Sample).length : ℝ)⌋).toNat = 0 := by
    norm_num [streamR1]
  rw [hfloor]
  rfl

theorem R1_result : poissonImageSampler cfgR1 streamR1 3 = some ([S0R1, S1R1], gR1) := by
  simp only [poissonImageSampler, if_pos R1_firstOk, R1_step3]
  simp

/-- C2: the bounds invariant fails for a non-zero bounds origin.  Run R1
(bounds x = 20, validated inputs, a valid draw sequence) completes and its
returned grid holds the sample S1R1 whose footprint crosses the left edge:
S1R1.x - S1R1.radius < bounds.x.  The in-bounds test of the source
compares against 0 and width instead of bounds.x and bounds.x + width. -/
theorem bounds_origin_ignored :
    validConfig cfgR1 ∧ validStream streamR1 ∧ cfgR1.bounds.x = 20 ∧
    poissonImageSampler cfgR1 streamR1 3 = some ([S0R1, S1R1], gR1) ∧
    gR1 9 = some S1R1 ∧
    S1R1.x - S1R1.radius < cfgR1.bounds.x := by
  refine ⟨R1_valid, R1_stream_valid, rfl, R1_result, ?_, ?_⟩
  · norm_num [gR1, insertGrid]
  · simp only [S1R1, cfgR1]
    nlinarith [sqrt2_lb]

/-- Witness for C1: in the completed run R1 the two grid samples S0R1 and
S1R1 (at distance exactly 10 sqrt 2) satisfy the spacing bound. -/
theorem spacing_invariant_witness :
    cfgR1.minDist + S0R1.radius + S1R1.radius ≤ hypot (S1R1.x - S0R1.x) (S1R1.y - S0R1.y) := by
  have hne : S0R1 ≠ S1R1 := by
    intro h
    have hx := congrArg Sample.x h
    simp only [S0R1, S1R1] at hx
    nlinarith [sqrt2_lb]
  exact spacing_invariant cfgR1 streamR1 3 R1_valid R1_stream_valid [S0R1, S1R1] gR1 R1_result
    10 9 S0R1 S1R1 (by norm_num [gR1, gR1a, insertGrid]) (by norm_num [gR1, insertGrid]) hne

/-- Witness for C10 on run R1. -/
theorem sample_index_valid_witness :
    (0 ≤ S1R1.index ∧ S1R1.index < (cfgR1.images.length : ℤ)) ∧
    (S0R1.index = 0 ∧ S0R1.radius = radiusFor cfgR1.isCircle (cfgR1.images.getD 0 ⟨0⟩).size) := by
  have h := sample_index_valid cfgR1 streamR1 3 R1_valid R1_stream_valid [S0R1, S1R1] gR1 R1_result
  exact ⟨h.1 9 S1R1 (by norm_num [gR1, insertGrid]), h.2 S0R1 rfl⟩

/-- Witness for the amended C3 on run R1. -/
theorem grid_index_amended_witness :
    (9 : ℤ) = getIndexInGrid S1R1 (cellSize cfgR1) (numCols cfgR1) ∧
    0 ≤ getIndexInGrid S1R1 (cellSize cfgR1) (numCols cfgR1) := by
  have h := grid_index_amended cfgR1 streamR1 3 R1_valid R1_stream_valid [S0R1, S1R1] gR1 R1_result
  exact ⟨h.1 9 S1R1 (by norm_num [gR1, insertGrid]), h.2 S1R1 (by simp)⟩

/-! ## Run R2: evaluation -/

theorem R2_valid : validConfig cfgR2 := by
  refine ⟨by norm_num [cfgR2], by norm_num [cfgR2], by simp [cfgR2], ?_, ?_, by norm_num [cfgR2]⟩
  · intro img hmem
    simp [cfgR2] at hmem
    simp [hmem]
  · simp only [cfgR2]
    nlinarith [sqrt2_lb]

theorem R2_stream_valid : validStream streamR2 := by
  intro n
  unfold streamR2
  split_ifs <;>
    exact ⟨by nlinarith [sqrt2_lb, sqrt2_ub], by nlinarith [sqrt2_lb, sqrt2_ub]⟩

theorem R2_cellSize : cellSize cfgR2 = 10 := by
  unfold cellSize cfgR2 minSize
  simp only [List.foldl_nil]
  rw [show (10 * Real.sqrt 2 - 2 + 1 * 2) = 10 * Real.sqrt 2 by ring, mul_div_assoc,
    div_self sqrt2_pos.ne.symm, mul_one]

theorem R2_numCols : numCols cfgR2 = 2 := by
  unfold numCols
  rw [R2_cellSize]
  norm_num [cfgR2]

theorem R2_numRows : numRows cfgR2 = 2 := by
  unfold numRows
  rw [R2_cellSize]
  norm_num [cfgR2]

theorem R2_range : neighborRange cfgR2 = 2 := by
  unfold neighborRange
  rw [R2_cellSize]
  have h1 : (cfgR2.minDist + maxSize cfgR2.images * 2) / 10 = Real.sqrt 2 := by
    simp only [cfgR2, maxSize, List.foldl_nil]
    ring
  rw [h1, Int.ceil_eq_iff]
  constructor
  · push_cast
    nlinarith [sqrt2_lb]
  · push_cast
    nlinarith [sqrt2_ub]

theorem R2_first : firstSample cfgR2 streamR2 = S0R2 := by
  unfold firstSample createFirstSample clampRandom
  simp only [cfgR2, streamR2, S0R2, radiusFor]
  norm_num

theorem R2_col0 : col0 cfgR2 streamR2 = 0 := by
  unfold col0
  rw [R2_first, R2_cellSize]
  norm_num [S0R2]

theorem R2_row0 : row0 cfgR2 streamR2 = 0 := by
  unfold row0
  rw [R2_first, R2_cellSize]
  norm_num [S0R2]

theorem R2_firstOk : firstSampleOk cfgR2 streamR2 := by
  unfold firstSampleOk
  rw [R2_first, R2_col0, R2_row0, R2_numCols, R2_numRows]
  exact ⟨by norm_num, by norm_num, by norm_num [S0R2, cfgR2], by norm_num [S0R2, cfgR2],
    by norm_num [S0R2, cfgR2], by norm_num [S0R2, cfgR2]⟩

theorem R2_idx0 : getIndexInGrid S0R2 (cellSize cfgR2) (numCols cfgR2) = 0 := by
  rw [R2_cellSize, R2_numCols]
  unfold getIndexInGrid
  norm_num [S0R2]

theorem R2_idx1 : getIndexInGrid S1R2 (cellSize cfgR2) (numCols cfgR2) = 4 := by
  rw [R2_cellSize, R2_numCols]
  unfold getIndexInGrid
  norm_num [S1R2]

theorem R2_init : runState cfgR2 streamR2 0 = ⟨gR2a, [S0R2], [S0R2], 2⟩ := by
  show initState cfgR2 streamR2 = _
  simp only [initState]
  rw [R2_first, R2_idx0]
  rfl

theorem R2_cand1 : candidate cfgR2 streamR2 S0R2 3 = S1R2 := by
  have h := @candidate_eval cfgR2 streamR2 S0R2 3
    0 (1 / 4) ((135 * Real.sqrt 2 - 169) / 196)
    ((135 * Real.sqrt 2 - 169) / 196) 0 1 1
    (31 / 2) (31 / 2) 0
    (by norm_num [streamR2]) (by norm_num [streamR2]) (by norm_num [streamR2])
    (by norm_num [streamR2])
    (by norm_num [chosenIndex, cfgR2])
    (by norm_num [imageAt, cfgR2])
    (by rw [show (1:ℝ) / 4 * Real.pi * 2 = Real.pi / 2 by ring, Real.cos_pi_div_two])
    (by rw [show (1:ℝ) / 4 * Real.pi * 2 = Real.pi / 2 by ring, Real.sin_pi_div_two])
    (by
      unfold clampRandom
      simp only [cfgR2, S0R2]
      linear_combination (675 / 98 : ℝ) * sqrt2_sq)
    (by
      unfold clampRandom
      simp only [cfgR2, S0R2]
      linear_combination (675 / 98 : ℝ) * sqrt2_sq)
  rw [h]
  simp only [S0R2, S1R2, cfgR2, radiusFor, if_pos, Sample.mk.injEq]
  norm_num

theorem R2_step1 : runState cfgR2 streamR2 1 = ⟨gR2, [S0R2, S1R2], [S0R2, S1R2], 7⟩ := by
  show step cfgR2 streamR2 (col0 cfgR2 streamR2) (row0 cfgR2 streamR2) (runState cfgR2 streamR2 0) = _
  rw [R2_init]
  have hseed : pickSeed ([S0R2] : List Sample) (streamR2 2) = S0R2 := by
    norm_num [pickSeed, streamR2]
  have hcand : candidate cfgR2 streamR2 (pickSeed ([S0R2] : List Sample) (streamR2 2)) (2 + 1) =
      S1R2 := by
    rw [hseed]
    exact R2_cand1
  have hb : isInBounds (candidate cfgR2 streamR2 (pickSeed ([S0R2] : List Sample) (streamR2 2)) (2 + 1))
      (col0 cfgR2 streamR2) (row0 cfgR2 streamR2) (numCols cfgR2) (numRows cfgR2) cfgR2.bounds := by
    rw [hcand, R2_col0, R2_row0, R2_numCols, R2_numRows]
    exact ⟨by norm_num, by norm_num, by norm_num [S1R2], by norm_num [S1R2, cfgR2],
      by norm_num [S1R2], by norm_num [S1R2, cfgR2]⟩
  have ha : isAllowedToDraw (candidate cfgR2 streamR2 (pickSeed ([S0R2] : List Sample) (streamR2 2)) (2 + 1))
      (cellSize cfgR2) (numCols cfgR2) cfgR2.minDist gR2a (neighborRange cfgR2) := by
    rw [hcand]
    intro i j hi1 hi2 hj1 hj2 nb hnb
    simp only [gR2a, insertGrid] at hnb
    split_ifs at hnb with he
    obtain rfl := (Option.some.inj hnb).symm
    have hx : S0R2.x - S1R2.x = 0 := by
      simp only [S0R2, S1R2]
      ring
    have hy : S0R2.y - S1R2.y = -(31 / 2) := by
      simp only [S0R2, S1R2]
      ring
    rw [hx, hy]
    unfold hypot
    rw [show (0:ℝ) ^ 2 + (-(31 / 2)) ^ 2 = (31 / 2) ^ 2 by ring,
      Real.sqrt_sq (by norm_num : (0:ℝ) ≤ 31 / 2)]
    have hth : cfgR2.minDist + S1R2.radius + S0R2.radius = 10 * Real.sqrt 2 := by
      simp only [S0R2, S1R2, cfgR2]
      ring
    rw [hth]
    intro hcon
    nlinarith [sqrt2_ub]
  rw [step_one_accept rfl (by simp) hb ha, hcand, R2_idx1]
  simp [gR2]

theorem R2_cand2 : candidate cfgR2 streamR2 S0R2 8 = ⟨5 - 10 * Real.sqrt 2, 5, 1, 0⟩ := by
  have h := @candidate_eval cfgR2 streamR2 S0R2 8
    0 (1 / 2) 0 0 (-1) 0 1
    (10 * Real.sqrt 2) (10 * Real.sqrt 2) 0
    (by norm_num [streamR2]) (by norm_num [streamR2]) (by norm_num [streamR2])
    (by norm_num [streamR2])
    (by norm_num [chosenIndex, cfgR2])
    (by norm_num [imageAt, cfgR2])
    (by rw [show (1:ℝ) / 2 * Real.pi * 2 = Real.pi by ring, Real.cos_pi])
    (by rw [show (1:ℝ) / 2 * Real.pi * 2 = Real.pi by ring, Real.sin_pi])
    (by unfold clampRandom; simp only [cfgR2, S0R2]; ring)
    (by unfold clampRandom; simp only [cfgR2, S0R2]; ring)
  rw [h]
  simp only [S0R2, cfgR2, radiusFor, if_pos, Sample.mk.injEq]
  norm_num
  ring

theorem R2_step2 : runState cfgR2 streamR2 2 = ⟨gR2, [S1R2], [S0R2, S1R2], 12⟩ := by
  show step cfgR2 streamR2 (col0 cfgR2 streamR2) (row0 cfgR2 streamR2) (runState cfgR2 streamR2 1) = _
  rw [R2_step1]
  have hseed : pickSeed ([S0R2, S1R2] : List Sample) (streamR2 7) = S0R2 := by
    norm_num [pickSeed, streamR2]
  have hcand : candidate cfgR2 streamR2 (pickSeed ([S0R2, S1R2] : List Sample) (streamR2 7)) (7 + 1) =
      ⟨5 - 10 * Real.sqrt 2, 5, 1, 0⟩ := by
    rw [hseed]
    exact R2_cand2
  have hrej : ¬ isInBounds
      (candidate cfgR2 streamR2 (pickSeed ([S0R2, S1R2] : List Sample) (streamR2 7)) (7 + 1))
      (col0 cfgR2 streamR2) (row0 cfgR2 streamR2) (numCols cfgR2) (numRows cfgR2) cfgR2.bounds := by
    rw [hcand]
    intro hcon
    have hxr := hcon.2.2.1
    simp only at hxr
    nlinarith [sqrt2_lb]
  rw [step_one_reject rfl (by simp) (Or.inl hrej)]
  have hfloor : (⌊streamR2 7 * (([S0R2, S1R2] : List Sample).length : ℝ)⌋).toNat = 0 := by
    norm_num [streamR2]
  rw [hfloor]
  rfl

theorem R2_cand3 : candidate cfgR2 streamR2 S1R2 13 = ⟨5 - 10 * Real.sqrt 2, 41 / 2, 1, 0⟩ := by
  have h := @candidate_eval cfgR2 streamR2 S1R2 13
    0 (1 / 2) 0 0 (-1) 0 1
    (10 * Real.sqrt 2) (10 * Real.sqrt 2) 0
    (by norm_num [streamR2]) (by norm_num [streamR2]) (by norm_num [streamR2])
    (by norm_num [streamR2])
    (by norm_num [chosenIndex, cfgR2])
    (by norm_num [imageAt, cfgR2])
    (by rw [show (1:ℝ) / 2 * Real.pi * 2 = Real.pi by ring, Real.cos_pi])
    (by rw [show (1:ℝ) / 2 * Real.pi * 2 = Real.pi by ring, Real.sin_pi])
    (by unfold clampRandom; simp only [cfgR2, S1R2]; ring)
    (by unfold clampRandom; simp only [cfgR2, S1R2]; ring)
  rw [h]
  simp only [S1R2, cfgR2, radiusFor, if_pos, Sample.mk.injEq]
  norm_num
  ring

theorem R2_step3 : runState cfgR2 streamR2 3 = ⟨gR2, [], [S0R2, S1R2], 17⟩ := by
  show step cfgR2 streamR2 (col0 cfgR2 streamR2) (row0 cfgR2 streamR2) (runState cfgR2 streamR2 2) = _
  rw [R2_step2]
  have hseed : pickSeed ([S1R2] : List Sample) (streamR2 12) = S1R2 := by
    norm_num [pickSeed, streamR2]
  have hcand : candidate cfgR2 streamR2 (pickSeed ([S1R2] : List Sample) (streamR2 12)) (12 + 1) =
      ⟨5 - 10 * Real.sqrt 2, 41 / 2, 1, 0⟩ := by
    rw [hseed]
    exact R2_cand3
  have hrej : ¬ isInBounds
      (candidate cfgR2 streamR2 (pickSeed ([S1R2] : List Sample) (streamR2 12)) (12 + 1))
      (col0 cfgR2 streamR2) (row0 cfgR2 streamR2) (numCols cfgR2) (numRows cfgR2) cfgR2.bounds := by
    rw [hcand]
    intro hcon
    have hxr := hcon.2.2.1
    simp only at hxr
    nlinarith [sqrt2_lb]
  rw [step_one_reject rfl (by simp) (Or.inl hrej)]
  have hfloor : (⌊streamR2 12 * (([S1R2] : List Sample).length : ℝ)⌋).toNat = 0 := by
    norm_num [streamR2]
  rw [hfloor]
  rfl

theorem R2_result : poissonImageSampler cfgR2 streamR2 3 = some ([S0R2, S1R2], gR2) := by
  simp only [poissonImageSampler, if_pos R2_firstOk, R2_step3]
  simp

/-- C3 counterexample: on run R2 (validated inputs, valid draws) the
accepted sample S1R2 is stored at flat index 4 = 0 + 2 numCols, which is
not inside [0, numCols numRows) = [0, 4): its own row equals numRows, so
the claimed index range and per-cell uniqueness fail. -/
theorem grid_index_out_of_range :
    validConfig cfgR2 ∧ validStream streamR2 ∧
    poissonImageSampler cfgR2 streamR2 3 = some ([S0R2, S1R2], gR2) ∧
    S1R2 ∈ [S0R2, S1R2] ∧ gR2 4 = some S1R2 ∧
    getIndexInGrid S1R2 (cellSize cfgR2) (numCols cfgR2) = 4 ∧
    numCols cfgR2 * numRows cfgR2 = 4 ∧
    ¬ getIndexInGrid S1R2 (cellSize cfgR2) (numCols cfgR2) <
        numCols cfgR2 * numRows cfgR2 := by
  refine ⟨R2_valid, R2_stream_valid, R2_result, by simp, by norm_num [gR2, insertGrid],
    R2_idx1, ?_, ?_⟩
  · rw [R2_numCols, R2_numRows]
    norm_num
  · rw [R2_idx1, R2_numCols, R2_numRows]
    norm_num

/-- C6: the per-candidate in-bounds test does not use the candidate's own
column and row.  In run R2 the accepted candidate S1R2 passes the check as
the source performs it (with the FIRST sample's col 0 and row 0), while
the same isInBounds test on the candidate's own column and row, whose row
floor(20.5/10) = 2 reaches numRows = 2, fails. -/
theorem stale_col_row_used :
    poissonImageSampler cfgR2 streamR2 3 = some ([S0R2, S1R2], gR2) ∧
    gR2 4 = some S1R2 ∧
    ⌊S1R2.y / cellSize cfgR2⌋ = numRows cfgR2 ∧
    isInBounds S1R2 (col0 cfgR2 streamR2) (row0 cfgR2 streamR2) (numCols cfgR2)
      (numRows cfgR2) cfgR2.bounds ∧
    ¬ isInBounds S1R2 ⌊S1R2.x / cellSize cfgR2⌋ ⌊S1R2.y / cellSize cfgR2⌋ (numCols cfgR2)
      (numRows cfgR2) cfgR2.bounds := by
  refine ⟨R2_result, by norm_num [gR2, insertGrid], ?_, ?_, ?_⟩
  · rw [R2_cellSize, R2_numRows]
    norm_num [S1R2]
  · rw [R2_col0, R2_row0, R2_numCols, R2_numRows]
    exact ⟨by norm_num, by norm_num, by norm_num [S1R2], by norm_num [S1R2, cfgR2],
      by norm_num [S1R2], by norm_num [S1R2, cfgR2]⟩
  · intro hcon
    have hrow := hcon.2.1
    rw [R2_cellSize, R2_numRows] at hrow
    norm_num [S1R2] at hrow

/-! ## Run R5: constants and stream -/

theorem R5_valid : validConfig cfgR5 := by
  refine ⟨by norm_num [cfgR5], by norm_num [cfgR5], by simp [cfgR5], ?_, ?_, by norm_num [cfgR5]⟩
  · intro img hmem
    simp [cfgR5] at hmem
    simp [hmem]
  · simp only [cfgR5]
    nlinarith [sqrt2_lb]

theorem streamR5_eval (n j : ℕ) (hj : j < 5) :
    streamR5 (2 + 5 * n + j) =
      (if j = 0 then (if n + 1 = 1 then 0 else if (n + 1) % 2 = 0 then 0 else 1 / (n + 1 : ℝ))
       else if j = 1 then 0
       else if j = 2 then (if n + 1 = 1 then 5 / 8 else if (n + 1) % 2 = 0 then 0 else 1 / 4)
       else if n + 1 = 1 then (30 + 3 * Real.sqrt 2) / 49
       else if (n + 1) % 2 = 0 then (45 * Real.sqrt 2 - 40) / 49
       else (50 * Real.sqrt 2 - 39) / 49) := by
  have h1 : ¬ (2 + 5 * n + j < 2) := by omega
  have h2 : (2 + 5 * n + j - 2) % 5 = j := by omega
  have h3 : (2 + 5 * n + j - 2) / 5 = n := by omega
  simp only [streamR5, if_neg h1, h2, h3]
  push_cast
  rfl

theorem R5_stream_valid : validStream streamR5 := by
  have hX : 0 ≤ (30 + 3 * Real.sqrt 2) / 49 ∧ (30 + 3 * Real.sqrt 2) / 49 < 1 :=
    ⟨by positivity, by rw [div_lt_one (by norm_num)]; nlinarith [sqrt2_ub]⟩
  have hA : 0 ≤ (45 * Real.sqrt 2 - 40) / 49 ∧ (45 * Real.sqrt 2 - 40) / 49 < 1 :=
    ⟨div_nonneg (by nlinarith [sqrt2_lb]) (by norm_num),
      by rw [div_lt_one (by norm_num)]; nlinarith [sqrt2_ub]⟩
  have hB : 0 ≤ (50 * Real.sqrt 2 - 39) / 49 ∧ (50 * Real.sqrt 2 - 39) / 49 < 1 :=
    ⟨div_nonneg (by nlinarith [sqrt2_lb]) (by norm_num),
      by rw [div_lt_one (by norm_num)]; nlinarith [sqrt2_ub]⟩
  intro p
  unfold streamR5
  by_cases h : p < 2
  · rw [if_pos h]
    split_ifs <;> norm_num
  · rw [if_neg h]
    simp only []
    set k := (p - 2) / 5 + 1 with hk
    split_ifs with g1 g2 g3 g4 g5 g6 g7 g8 g9
    · exact ⟨le_rfl, by norm_num⟩
    · exact ⟨le_rfl, by norm_num⟩
    · refine ⟨by positivity, ?_⟩
      have hk2 : (1 : ℝ) < (k : ℝ) := by
        have hgt : 1 < k := by omega
        exact_mod_cast hgt
      rw [div_lt_one (by linarith)]
      exact hk2
    · exact ⟨le_rfl, by norm_num⟩
    · exact ⟨by norm_num, by norm_num⟩
    · exact ⟨le_rfl, by norm_num⟩
    · exact ⟨by norm_num, by norm_num⟩
    · exact hX
    · exact hA
    · exact hB

theorem R5_cellSize : cellSize cfgR5 = 10 := by
  unfold cellSize cfgR5 minSize
  simp only [List.foldl_nil]
  rw [show (10 * Real.sqrt 2 - 2 + 1 * 2) = 10 * Real.sqrt 2 by ring, mul_div_assoc,
    div_self sqrt2_pos.ne.symm, mul_one]

theorem R5_numCols : numCols cfgR5 = 4 := by
  unfold numCols
  rw [R5_cellSize]
  norm_num [cfgR5]

theorem R5_numRows : numRows cfgR5 = 4 := by
  unfold numRows
  rw [R5_cellSize]
  norm_num [cfgR5]

theorem R5_range : neighborRange cfgR5 = 2 := by
  unfold neighborRange
  rw [R5_cellSize]
  have h1 : (cfgR5.minDist + maxSize cfgR5.images * 2) / 10 = Real.sqrt 2 := by
    simp only [cfgR5, maxSize, List.foldl_nil]
    ring
  rw [h1, Int.ceil_eq_iff]
  constructor
  · push_cast
    nlinarith [sqrt2_lb]
  · push_cast
    nlinarith [sqrt2_ub]

theorem R5_first : firstSample cfgR5 streamR5 = S0R5 := by
  unfold firstSample createFirstSample clampRandom
  simp only [cfgR5, streamR5, S0R5, radiusFor]
  norm_num

theorem R5_col0 : col0 cfgR5 streamR5 = 2 := by
  unfold col0
  rw [R5_first, R5_cellSize]
  norm_num [S0R5]

theorem R5_row0 : row0 cfgR5 streamR5 = 2 := by
  unfold row0
  rw [R5_first, R5_cellSize]
  norm_num [S0R5]

theorem R5_firstOk : firstSampleOk cfgR5 streamR5 := by
  unfold firstSampleOk
  rw [R5_first, R5_col0, R5_row0, R5_numCols, R5_numRows]
  exact ⟨by norm_num, by norm_num, by norm_num [S0R5, cfgR5], by norm_num [S0R5, cfgR5],
    by norm_num [S0R5, cfgR5], by norm_num [S0R5, cfgR5]⟩

theorem R5_idx0 : getIndexInGrid S0R5 (cellSize cfgR5) (numCols cfgR5) = 10 := by
  rw [R5_cellSize, R5_numCols]
  unfold getIndexInGrid
  norm_num [S0R5]

theorem R5_idxSB : getIndexInGrid SBR5 (cellSize cfgR5) (numCols cfgR5) = 0 := by
  rw [R5_cellSize, R5_numCols]
  unfold getIndexInGrid
  norm_num [SBR5]

theorem R5_idxA : getIndexInGrid AR5 (cellSize cfgR5) (numCols cfgR5) = 12 := by
  rw [R5_cellSize, R5_numCols]
  unfold getIndexInGrid
  norm_num [AR5]

theorem R5_idxB : getIndexInGrid BR5 (cellSize cfgR5) (numCols cfgR5) = 12 := by
  rw [R5_cellSize, R5_numCols]
  unfold getIndexInGrid
  norm_num [BR5]

theorem R5_init : runState cfgR5 streamR5 0 = ⟨gR5init, [S0R5], [S0R5], 2⟩ := by
  show initState cfgR5 streamR5 = _
  simp only [initState]
  rw [R5_first, R5_idx0]
  rfl

theorem R5_cand1 : candidate cfgR5 streamR5 S0R5 3 = SBR5 := by
  have e1 : streamR5 3 = 0 := by
    have h := streamR5_eval 0 1 (by norm_num)
    norm_num at h
    exact h
  have e2 : streamR5 4 = 5 / 8 := by
    have h := streamR5_eval 0 2 (by norm_num)
    norm_num at h
    exact h
  have e3 : streamR5 5 = (30 + 3 * Real.sqrt 2) / 49 := by
    have h := streamR5_eval 0 3 (by norm_num)
    norm_num at h
    exact h
  have e4 : streamR5 6 = (30 + 3 * Real.sqrt 2) / 49 := by
    have h := streamR5_eval 0 4 (by norm_num)
    norm_num at h
    exact h
  have h := @candidate_eval cfgR5 streamR5 S0R5 3
    0 (5 / 8) ((30 + 3 * Real.sqrt 2) / 49)
    ((30 + 3 * Real.sqrt 2) / 49)
    (-(Real.sqrt 2 / 2)) (-(Real.sqrt 2 / 2)) 1
    (16 * Real.sqrt 2) (16 * Real.sqrt 2) 0
    e1 e2 e3 e4
    (by norm_num [chosenIndex, cfgR5])
    (by norm_num [imageAt, cfgR5])
    (by
      rw [show (5:ℝ) / 8 * Real.pi * 2 = Real.pi / 4 + Real.pi by ring, Real.cos_add_pi,
        Real.cos_pi_div_four])
    (by
      rw [show (5:ℝ) / 8 * Real.pi * 2 = Real.pi / 4 + Real.pi by ring, Real.sin_add_pi,
        Real.sin_pi_div_four])
    (by
      unfold clampRandom
      simp only [cfgR5, S0R5]
      linear_combination (30 / 49 : ℝ) * sqrt2_sq)
    (by
      unfold clampRandom
      simp only [cfgR5, S0R5]
      linear_combination (30 / 49 : ℝ) * sqrt2_sq)
  rw [h]
  simp only [S0R5, SBR5, cfgR5, radiusFor, if_pos, Sample.mk.injEq]
  refine ⟨?_, ?_, by norm_num, by norm_num⟩
  · linear_combination (-8 : ℝ) * sqrt2_sq
  · linear_combination (-8 : ℝ) * sqrt2_sq

theorem R5_candA (n : ℕ) (hn : n % 2 = 1) :
    candidate cfgR5 streamR5 S0R5 (2 + 5 * n + 1) = AR5 := by
  have e1 : streamR5 (2 + 5 * n + 1) = 0 := by
    have h := streamR5_eval n 1 (by norm_num)
    norm_num at h
    exact h
  have e2 : streamR5 (2 + 5 * n + 1 + 1) = 0 := by
    have h := streamR5_eval n 2 (by norm_num)
    norm_num at h
    rw [if_neg (by omega), if_pos (by omega)] at h
    rw [show 2 + 5 * n + 1 + 1 = 2 + 5 * n + 2 by ring]
    exact h
  have e3 : streamR5 (2 + 5 * n + 1 + 2) = (45 * Real.sqrt 2 - 40) / 49 := by
    have h := streamR5_eval n 3 (by norm_num)
    norm_num at h
    rw [if_neg (by omega), if_pos (by omega)] at h
    rw [show 2 + 5 * n + 1 + 2 = 2 + 5 * n + 3 by ring]
    exact h
  have e4 : streamR5 (2 + 5 * n + 1 + 3) = (45 * Real.sqrt 2 - 40) / 49 := by
    have h := streamR5_eval n 4 (by norm_num)
    norm_num at h
    rw [if_neg (by omega), if_pos (by omega)] at h
    rw [show 2 + 5 * n + 1 + 3 = 2 + 5 * n + 4 by ring]
    exact h
  have h := @candidate_eval cfgR5 streamR5 S0R5
    (2 + 5 * n + 1)
    0 0 ((45 * Real.sqrt 2 - 40) / 49)
    ((45 * Real.sqrt 2 - 40) / 49)
    1 0 1 20 20 0
    e1 e2 e3 e4
    (by norm_num [chosenIndex, cfgR5])
    (by norm_num [imageAt, cfgR5])
    (by rw [show (0:ℝ) * Real.pi * 2 = 0 by ring, Real.cos_zero])
    (by rw [show (0:ℝ) * Real.pi * 2 = 0 by ring, Real.sin_zero])
    (by
      unfold clampRandom
      simp only [cfgR5, S0R5]
      linear_combination (450 / 49 : ℝ) * sqrt2_sq)
    (by
      unfold clampRandom
      simp only [cfgR5, S0R5]
      linear_combination (450 / 49 : ℝ) * sqrt2_sq)
  rw [h]
  simp only [S0R5, AR5, cfgR5, radiusFor, if_pos, Sample.mk.injEq]
  norm_num

theorem R5_candB (n : ℕ) (hn : n % 2 = 0) (hn2 : 2 ≤ n) :
    candidate cfgR5 streamR5 SBR5 (2 + 5 * n + 1) = BR5 := by
  have e1 : streamR5 (2 + 5 * n + 1) = 0 := by
    have h := streamR5_eval n 1 (by norm_num)
    norm_num at h
    exact h
  have e2 : streamR5 (2 + 5 * n + 1 + 1) = 1 / 4 := by
    have h := streamR5_eval n 2 (by norm_num)
    norm_num at h
    rw [if_neg (by omega), if_neg (by omega)] at h
    rw [show 2 + 5 * n + 1 + 1 = 2 + 5 * n + 2 by ring]
    exact h
  have e3 : streamR5 (2 + 5 * n + 1 + 2) = (50 * Real.sqrt 2 - 39) / 49 := by
    have h := streamR5_eval n 3 (by norm_num)
    norm_num at h
    rw [if_neg (by omega), if_neg (by omega)] at h
    rw [show 2 + 5 * n + 1 + 2 = 2 + 5 * n + 3 by ring]
    exact h
  have e4 : streamR5 (2 + 5 * n + 1 + 3) = (50 * Real.sqrt 2 - 39) / 49 := by
    have h := streamR5_eval n 4 (by norm_num)
    norm_num at h
    rw [if_neg (by omega), if_neg (by omega)] at h
    rw [show 2 + 5 * n + 1 + 3 = 2 + 5 * n + 4 by ring]
    exact h
  have h := @candidate_eval cfgR5 streamR5 SBR5
    (2 + 5 * n + 1)
    0 (1 / 4) ((50 * Real.sqrt 2 - 39) / 49)
    ((50 * Real.sqrt 2 - 39) / 49)
    0 1 1 22 22 0
    e1 e2 e3 e4
    (by norm_num [chosenIndex, cfgR5])
    (by norm_num [imageAt, cfgR5])
    (by rw [show (1:ℝ) / 4 * Real.pi * 2 = Real.pi / 2 by ring, Real.cos_pi_div_two])
    (by rw [show (1:ℝ) / 4 * Real.pi * 2 = Real.pi / 2 by ring, Real.sin_pi_div_two])
    (by
      unfold clampRandom
      simp only [cfgR5, SBR5]
      linear_combination (500 / 49 : ℝ) * sqrt2_sq)
    (by
      unfold clampRandom
      simp only [cfgR5, SBR5]
      linear_combination (500 / 49 : ℝ) * sqrt2_sq)
  rw [h]
  simp only [SBR5, BR5, cfgR5, radiusFor, if_pos, Sample.mk.injEq]
  norm_num

theorem altR5_length (m : ℕ) : (altR5 m).length = m := by
  induction m with
  | zero => rfl
  | succ k ih => simp [altR5, ih]

theorem R5_far {s t : Sample} (hs : s.radius = 1) (ht : t.radius = 1)
    (h : (200 : ℝ) ≤ (t.x - s.x) ^ 2 + (t.y - s.y) ^ 2) :
    ¬ hypot (t.x - s.x) (t.y - s.y) < cfgR5.minDist + s.radius + t.radius := by
  have hth : cfgR5.minDist + s.radius + t.radius = 10 * Real.sqrt 2 := by
    rw [hs, ht]
    simp only [cfgR5]
    ring
  rw [hth]
  exact not_hypot_lt (by positivity) (by nlinarith [sqrt2_sq, h])

theorem R5_allow1 : isAllowedToDraw SBR5 (cellSize cfgR5) (numCols cfgR5) cfgR5.minDist
    gR5init (neighborRange cfgR5) := by
  intro i j hi1 hi2 hj1 hj2 nb hnb
  simp only [gR5init, insertGrid] at hnb
  split_ifs at hnb with e1
  obtain rfl := (Option.some.inj hnb).symm
  exact R5_far rfl rfl (by norm_num [SBR5, S0R5])

theorem R5_allowA1 : isAllowedToDraw AR5 (cellSize cfgR5) (numCols cfgR5) cfgR5.minDist
    gR5X (neighborRange cfgR5) := by
  intro i j hi1 hi2 hj1 hj2 nb hnb
  simp only [gR5X, gR5init, insertGrid] at hnb
  split_ifs at hnb with e1 e2
  · obtain rfl := (Option.some.inj hnb).symm
    exact R5_far rfl rfl (by norm_num [AR5, SBR5])
  · obtain rfl := (Option.some.inj hnb).symm
    exact R5_far rfl rfl (by norm_num [AR5, S0R5])

theorem R5_allowB : isAllowedToDraw BR5 (cellSize cfgR5) (numCols cfgR5) cfgR5.minDist
    gR5A (neighborRange cfgR5) := by
  intro i j hi1 hi2 hj1 hj2 nb hnb
  simp only [gR5A, gR5X, gR5init, insertGrid] at hnb
  split_ifs at hnb with e1 e2 e3
  · obtain rfl := (Option.some.inj hnb).symm
    exact R5_far rfl rfl (by norm_num [BR5, AR5])
  · obtain rfl := (Option.some.inj hnb).symm
    exact R5_far rfl rfl (by norm_num [BR5, SBR5])
  · obtain rfl := (Option.some.inj hnb).symm
    exact R5_far rfl rfl (by norm_num [BR5, S0R5])

theorem R5_allowA : isAllowedToDraw AR5 (cellSize cfgR5) (numCols cfgR5) cfgR5.minDist
    gR5B (neighborRange cfgR5) := by
  intro i j hi1 hi2 hj1 hj2 nb hnb
  simp only [gR5B, gR5A, gR5X, gR5init, insertGrid] at hnb
  split_ifs at hnb with e1 e2 e3
  · obtain rfl := (Option.some.inj hnb).symm
    exact R5_far rfl rfl (by norm_num [AR5, BR5])
  · obtain rfl := (Option.some.inj hnb).symm
    exact R5_far rfl rfl (by norm_num [AR5, SBR5])
  · obtain rfl := (Option.some.inj hnb).symm
    exact R5_far rfl rfl (by norm_num [AR5, S0R5])

theorem R5_step1 : runState cfgR5 streamR5 1 = ⟨gR5X, [S0R5, SBR5], [S0R5, SBR5], 7⟩ := by
  show step cfgR5 streamR5 (col0 cfgR5 streamR5) (row0 cfgR5 streamR5)
    (runState cfgR5 streamR5 0) = _
  rw [R5_init]
  have e2 : streamR5 2 = 0 := by
    have h := streamR5_eval 0 0 (by norm_num)
    norm_num at h
    exact h
  have hseed : pickSeed ([S0R5] : List Sample) (streamR5 2) = S0R5 := by
    rw [e2]
    norm_num [pickSeed]
  have hcand : candidate cfgR5 streamR5 (pickSeed ([S0R5] : List Sample) (streamR5 2)) (2 + 1) =
      SBR5 := by
    rw [hseed]
    exact R5_cand1
  have hb : isInBounds
      (candidate cfgR5 streamR5 (pickSeed ([S0R5] : List Sample) (streamR5 2)) (2 + 1))
      (col0 cfgR5 streamR5) (row0 cfgR5 streamR5) (numCols cfgR5) (numRows cfgR5)
      cfgR5.bounds := by
    rw [hcand, R5_col0, R5_row0, R5_numCols, R5_numRows]
    exact ⟨by norm_num, by norm_num, by norm_num [SBR5], by norm_num [SBR5, cfgR5],
      by norm_num [SBR5], by norm_num [SBR5, cfgR5]⟩
  have ha : isAllowedToDraw
      (candidate cfgR5 streamR5 (pickSeed ([S0R5] : List Sample) (streamR5 2)) (2 + 1))
      (cellSize cfgR5) (numCols cfgR5) cfgR5.minDist gR5init (neighborRange cfgR5) := by
    rw [hcand]
    exact R5_allow1
  rw [step_one_accept rfl (by simp) hb ha, hcand, R5_idxSB]
  simp [gR5X]

theorem R5_step2 : runState cfgR5 streamR5 2 = ⟨gR5A, [S0R5, SBR5, AR5], [S0R5, SBR5, AR5], 12⟩ := by
  show step cfgR5 streamR5 (col0 cfgR5 streamR5) (row0 cfgR5 streamR5)
    (runState cfgR5 streamR5 1) = _
  rw [R5_step1]
  have e7 : streamR5 7 = 0 := by
    have h := streamR5_eval 1 0 (by norm_num)
    norm_num at h
    exact h
  have hseed : pickSeed ([S0R5, SBR5] : List Sample) (streamR5 7) = S0R5 := by
    rw [e7]
    norm_num [pickSeed]
  have hcand : candidate cfgR5 streamR5 (pickSeed ([S0R5, SBR5] : List Sample) (streamR5 7))
      (7 + 1) = AR5 := by
    rw [hseed, show 7 + 1 = 2 + 5 * 1 + 1 by norm_num]
    exact R5_candA 1 (by norm_num)
  have hb : isInBounds
      (candidate cfgR5 streamR5 (pickSeed ([S0R5, SBR5] : List Sample) (streamR5 7)) (7 + 1))
      (col0 cfgR5 streamR5) (row0 cfgR5 streamR5) (numCols cfgR5) (numRows cfgR5)
      cfgR5.bounds := by
    rw [hcand, R5_col0, R5_row0, R5_numCols, R5_numRows]
    exact ⟨by norm_num, by norm_num, by norm_num [AR5], by norm_num [AR5, cfgR5],
      by norm_num [AR5], by norm_num [AR5, cfgR5]⟩
  have ha : isAllowedToDraw
      (candidate cfgR5 streamR5 (pickSeed ([S0R5, SBR5] : List Sample) (streamR5 7)) (7 + 1))
      (cellSize cfgR5) (numCols cfgR5) cfgR5.minDist gR5X (neighborRange cfgR5) := by
    rw [hcand]
    exact R5_allowA1
  rw [step_one_accept rfl (by simp) hb ha, hcand, R5_idxA]
  simp [gR5A]

theorem gR5_BA : insertGrid gR5B 12 AR5 = gR5A := by
  funext k
  simp only [gR5B, gR5A, gR5X, gR5init, insertGrid]
  split_ifs <;> rfl

theorem R5_even_to_odd (n : ℕ) (hn2 : 2 ≤ n) (hpar : n % 2 = 0)
    (hst : runState cfgR5 streamR5 n =
      ⟨gR5A, S0R5 :: SBR5 :: altR5 (n - 1), S0R5 :: SBR5 :: altR5 (n - 1), 2 + 5 * n⟩) :
    runState cfgR5 streamR5 (n + 1) =
      ⟨gR5B, S0R5 :: SBR5 :: altR5 n, S0R5 :: SBR5 :: altR5 n, 2 + 5 * (n + 1)⟩ := by
  show step cfgR5 streamR5 (col0 cfgR5 streamR5) (row0 cfgR5 streamR5)
    (runState cfgR5 streamR5 n) = _
  rw [hst]
  have es : streamR5 (2 + 5 * n) = 1 / (n + 1 : ℝ) := by
    have h := streamR5_eval n 0 (by norm_num)
    rw [if_pos rfl, if_neg (by omega : ¬ (n + 1 = 1)),
      if_neg (by omega : ¬ ((n + 1) % 2 = 0))] at h
    exact h
  have hlen : (S0R5 :: SBR5 :: altR5 (n - 1)).length = n + 1 := by
    simp only [List.length_cons, altR5_length]
    omega
  have hseed : pickSeed (S0R5 :: SBR5 :: altR5 (n - 1)) (streamR5 (2 + 5 * n)) = SBR5 := by
    rw [es]
    unfold pickSeed
    rw [hlen]
    have hv : 1 / ((n : ℝ) + 1) * ((n + 1 : ℕ) : ℝ) = 1 := by
      have hx : ((n : ℝ) + 1) ≠ 0 := by positivity
      push_cast
      field_simp
    have hf : ⌊1 / ((n : ℝ) + 1) * ((n + 1 : ℕ) : ℝ)⌋ = 1 := by
      rw [hv]
      norm_num
    rw [hf]
    rfl
  have hcand : candidate cfgR5 streamR5
      (pickSeed (S0R5 :: SBR5 :: altR5 (n - 1)) (streamR5 (2 + 5 * n))) (2 + 5 * n + 1) =
      BR5 := by
    rw [hseed]
    exact R5_candB n hpar hn2
  have hb : isInBounds
      (candidate cfgR5 streamR5
        (pickSeed (S0R5 :: SBR5 :: altR5 (n - 1)) (streamR5 (2 + 5 * n))) (2 + 5 * n + 1))
      (col0 cfgR5 streamR5) (row0 cfgR5 streamR5) (numCols cfgR5) (numRows cfgR5)
      cfgR5.bounds := by
    rw [hcand, R5_col0, R5_row0, R5_numCols, R5_numRows]
    exact ⟨by norm_num, by norm_num, by norm_num [BR5], by norm_num [BR5, cfgR5],
      by norm_num [BR5], by norm_num [BR5, cfgR5]⟩
  have ha : isAllowedToDraw
      (candidate cfgR5 streamR5
        (pickSeed (S0R5 :: SBR5 :: altR5 (n - 1)) (streamR5 (2 + 5 * n))) (2 + 5 * n + 1))
      (cellSize cfgR5) (numCols cfgR5) cfgR5.minDist gR5A (neighborRange cfgR5) := by
    rw [hcand]
    exact R5_allowB
  have hact : altR5 (n - 1) ++ [BR5] = altR5 n := by
    have h1 : n = (n - 1) + 1 := by omega
    conv_rhs => rw [h1]
    rw [altR5, if_neg (by omega : ¬ ((n - 1) % 2 = 0))]
  rw [step_one_accept rfl (by simp) hb ha, hcand, R5_idxB]
  simp only [St.mk.injEq, List.cons_append, List.nil_append]
  refine ⟨by trivial, ?_, ?_, by ring⟩
  · rw [hact]
  · rw [hact]

theorem R5_odd_to_even (n : ℕ) (hn3 : 3 ≤ n) (hpar : n % 2 = 1)
    (hst : runState cfgR5 streamR5 n =
      ⟨gR5B, S0R5 :: SBR5 :: altR5 (n - 1), S0R5 :: SBR5 :: altR5 (n - 1), 2 + 5 * n⟩) :
    runState cfgR5 streamR5 (n + 1) =
      ⟨gR5A, S0R5 :: SBR5 :: altR5 n, S0R5 :: SBR5 :: altR5 n, 2 + 5 * (n + 1)⟩ := by
  show step cfgR5 streamR5 (col0 cfgR5 streamR5) (row0 cfgR5 streamR5)
    (runState cfgR5 streamR5 n) = _
  rw [hst]
  have es : streamR5 (2 + 5 * n) = 0 := by
    have h := streamR5_eval n 0 (by norm_num)
    rw [if_pos rfl, if_neg (by omega : ¬ (n + 1 = 1)),
      if_pos (by omega : (n + 1) % 2 = 0)] at h
    exact h
  have hseed : pickSeed (S0R5 :: SBR5 :: altR5 (n - 1)) (streamR5 (2 + 5 * n)) = S0R5 := by
    rw [es]
    unfold pickSeed
    rw [zero_mul, Int.floor_zero]
    rfl
  have hcand : candidate cfgR5 streamR5
      (pickSeed (S0R5 :: SBR5 :: altR5 (n - 1)) (streamR5 (2 + 5 * n))) (2 + 5 * n + 1) =
      AR5 := by
    rw [hseed]
    exact R5_candA n hpar
  have hb : isInBounds
      (candidate cfgR5 streamR5
        (pickSeed (S0R5 :: SBR5 :: altR5 (n - 1)) (streamR5 (2 + 5 * n))) (2 + 5 * n + 1))
      (col0 cfgR5 streamR5) (row0 cfgR5 streamR5) (numCols cfgR5) (numRows cfgR5)
      cfgR5.bounds := by
    rw [hcand, R5_col0, R5_row0, R5_numCols, R5_numRows]
    exact ⟨by norm_num, by norm_num, by norm_num [AR5], by norm_num [AR5, cfgR5],
      by norm_num [AR5], by norm_num [AR5, cfgR5]⟩
  have ha : isAllowedToDraw
      (candidate cfgR5 streamR5
        (pickSeed (S0R5 :: SBR5 :: altR5 (n - 1)) (streamR5 (2 + 5 * n))) (2 + 5 * n + 1))
      (cellSize cfgR5) (numCols cfgR5) cfgR5.minDist gR5B (neighborRange cfgR5) := by
    rw [hcand]
    exact R5_allowA
  have hact : altR5 (n - 1) ++ [AR5] = altR5 n := by
    have h1 : n = (n - 1) + 1 := by omega
    conv_rhs => rw [h1]
    rw [altR5, if_pos (by omega : (n - 1) % 2 = 0)]
  rw [step_one_accept rfl (by simp) hb ha, hcand, R5_idxA, gR5_BA]
  simp only [St.mk.injEq, List.cons_append, List.nil_append]
  refine ⟨by trivial, ?_, ?_, by ring⟩
  · rw [hact]
  · rw [hact]

theorem R5_state (n : ℕ) (hn : 2 ≤ n) :
    runState cfgR5 streamR5 n =
      ⟨(if n % 2 = 0 then gR5A else gR5B), S0R5 :: SBR5 :: altR5 (n - 1),
        S0R5 :: SBR5 :: altR5 (n - 1), 2 + 5 * n⟩ := by
  induction n, hn using Nat.le_induction with
  | base =>
    rw [R5_step2]
    norm_num [altR5]
  | succ n hn ih =>
    by_cases hpar : n % 2 = 0
    · have h := R5_even_to_odd n hn hpar (by rw [ih, if_pos hpar])
      rw [h]
      simp only [Nat.add_sub_cancel]
      rw [if_neg (by omega)]
    · have h := R5_odd_to_even n (by omega) (by omega) (by rw [ih, if_neg hpar])
      rw [h]
      simp only [Nat.add_sub_cancel]
      rw [if_pos (by omega)]

theorem R5_active_ne (m : ℕ) : (runState cfgR5 streamR5 m).active ≠ [] := by
  match m with
  | 0 =>
    rw [R5_init]
    simp
  | 1 =>
    rw [R5_step1]
    simp
  | n + 2 =>
    rw [R5_state (n + 2) (by omega)]
    simp

/-- C5 counterexample: the growth loop need not terminate.  Run R5 uses
validated inputs (bounds 45 x 45, one image of size 1, minDist
10 sqrt 2 - 2, maxTries 1, circular samples) and a draw sequence with every
value in [0, 1), its first sample passes the initial in-bounds guard, yet
the active list is never empty: from iteration 2 on the run alternates
forever between the aliased samples AR5 (cell (4,2), in the column
overflow strip the stale in-bounds test fails to reject) and BR5 (cell
(0,3)), which share flat grid index 12, each acceptance overwriting the
other.  Hence the source's while loop runs forever and the embedded
sampler returns none at every fuel. -/
theorem growth_loop_divergence :
    validConfig cfgR5 ∧ validStream streamR5 ∧ firstSampleOk cfgR5 streamR5 ∧
      ¬ SamplerTerminates cfgR5 streamR5 ∧
      ∀ fuel, poissonImageSampler cfgR5 streamR5 fuel = none := by
  refine ⟨R5_valid, R5_stream_valid, R5_firstOk, ?_, ?_⟩
  · rintro ⟨n, hn⟩
    exact R5_active_ne n hn
  · intro fuel
    simp only [poissonImageSampler, if_pos R5_firstOk]
    rw [if_neg (R5_active_ne fuel)]

/-! ## Termination of the growth loop under the amended hypotheses -/

theorem radius_ge_minSize {cfg : Config} (hc : cfg.isCircle = true) {s : Sample}
    (hwf : SampleWf cfg s) : minSize cfg.images ≤ s.radius := by
  obtain ⟨⟨img, hmem, hrad⟩, -⟩ := hwf
  rw [hrad, radiusFor, hc, if_pos rfl]
  exact minSize_le hmem

theorem col_range {cfg : Config} (hv : validConfig cfg) (hc : cfg.isCircle = true)
    (hns : NoColStrip cfg) {s : Sample} (hwf : SampleWf cfg s) (hr : InRect cfg s) :
    0 ≤ ⌊s.x / cellSize cfg⌋ ∧ ⌊s.x / cellSize cfg⌋ < numCols cfg := by
  have hcs := cellSize_pos hv
  have hrad := radius_ge_minSize hc hwf
  have hrpos := radius_pos hv hwf
  constructor
  · apply Int.floor_nonneg.mpr
    apply div_nonneg _ hcs.le
    linarith [hr.1]
  · rw [Int.floor_lt, div_lt_iff hcs]
    have hx := hr.2.1
    unfold NoColStrip at hns
    linarith

theorem row_range {cfg : Config} (hv : validConfig cfg) {s : Sample}
    (hwf : SampleWf cfg s) (hr : InRect cfg s) :
    0 ≤ ⌊s.y / cellSize cfg⌋ ∧ ⌊s.y / cellSize cfg⌋ ≤ numRows cfg := by
  have hcs := cellSize_pos hv
  have hrpos := radius_pos hv hwf
  constructor
  · apply Int.floor_nonneg.mpr
    apply div_nonneg _ hcs.le
    linarith [hr.2.2.1]
  · unfold numRows
    apply Int.floor_le_floor
    have hy := hr.2.2.2
    gcongr
    linarith

theorem idx_range {cfg : Config} (hv : validConfig cfg) (hc : cfg.isCircle = true)
    (hns : NoColStrip cfg) {s : Sample} (hwf : SampleWf cfg s) (hr : InRect cfg s) :
    0 ≤ idxOf cfg s ∧ idxOf cfg s < numCols cfg * (numRows cfg + 1) := by
  obtain ⟨hc0, hc1⟩ := col_range hv hc hns hwf hr
  obtain ⟨hr0, hr1⟩ := row_range hv hwf hr
  have hK := numCols_nonneg hv
  unfold idxOf getIndexInGrid
  constructor
  · have hmul : 0 ≤ ⌊s.y / cellSize cfg⌋ * numCols cfg := mul_nonneg hr0 hK
    linarith
  · have hmul : ⌊s.y / cellSize cfg⌋ * numCols cfg ≤ numRows cfg * numCols cfg :=
      mul_le_mul_of_nonneg_right hr1 hK
    nlinarith

theorem linear_index_inj {K c1 r1 c2 r2 : ℤ} (h1 : 0 ≤ c1) (h2 : c1 < K)
    (h3 : 0 ≤ c2) (h4 : c2 < K) (h : c1 + r1 * K = c2 + r2 * K) :
    c1 = c2 ∧ r1 = r2 := by
  have hK : 0 < K := lt_of_le_of_lt h1 h2
  have hr : r1 = r2 := by
    rcases lt_trichotomy r1 r2 with hlt | heq | hgt
    · exfalso
      have hm : (r1 + 1) * K ≤ r2 * K :=
        mul_le_mul_of_nonneg_right (by omega) hK.le
      nlinarith
    · exact heq
    · exfalso
      have hm : (r2 + 1) * K ≤ r1 * K :=
        mul_le_mul_of_nonneg_right (by omega) hK.le
      nlinarith
  subst hr
  exact ⟨by linarith, rfl⟩

theorem same_cell_close {cfg : Config} (hv : validConfig cfg) {s t : Sample}
    (hcol : ⌊s.x / cellSize cfg⌋ = ⌊t.x / cellSize cfg⌋)
    (hrow : ⌊s.y / cellSize cfg⌋ = ⌊t.y / cellSize cfg⌋) :
    hypot (t.x - s.x) (t.y - s.y) < cellSize cfg * Real.sqrt 2 := by
  have hcs := cellSize_pos hv
  have hx := Int.abs_sub_lt_one_of_floor_eq_floor hcol
  have hy := Int.abs_sub_lt_one_of_floor_eq_floor hrow
  rw [div_sub_div_same, abs_div, abs_of_pos hcs, div_lt_one hcs] at hx hy
  have hx2 : (t.x - s.x) ^ 2 < cellSize cfg ^ 2 := by
    obtain ⟨ha, hb⟩ := abs_lt.mp hx
    nlinarith
  have hy2 : (t.y - s.y) ^ 2 < cellSize cfg ^ 2 := by
    obtain ⟨ha, hb⟩ := abs_lt.mp hy
    nlinarith
  unfold hypot
  rw [show Real.sqrt ((t.x - s.x) ^ 2 + (t.y - s.y) ^ 2) < cellSize cfg * Real.sqrt 2 ↔ _ from
    Real.sqrt_lt' (by positivity)]
  nlinarith [sqrt2_sq]

theorem cellSize_sqrt2 (cfg : Config) :
    cellSize cfg * Real.sqrt 2 = cfg.minDist + minSize cfg.images * 2 := by
  unfold cellSize
  rw [div_mul_cancel₀ _ (ne_of_gt sqrt2_pos)]

theorem tryOnce_inv5 {cfg : Config} {stream : ℕ → ℝ} (hv : validConfig cfg)
    (hs : validStream stream) (hc : cfg.isCircle = true) (hns : NoColStrip cfg)
    {c0 r0 : ℤ} (seed : Sample) (st : St) (f : Bool)
    (hInv : Inv cfg st) (h5 : Inv5 cfg st) :
    Inv5 cfg (tryOnce cfg stream c0 r0 seed (st, f)).1 := by
  obtain ⟨hocc, hnd⟩ := h5
  by_cases h1 : isInBounds (candidate cfg stream seed st.pos) c0 r0 (numCols cfg)
      (numRows cfg) cfg.bounds
  swap
  · rw [tryOnce_reject (Or.inl h1)]
    exact ⟨hocc, hnd⟩
  by_cases h2 : isAllowedToDraw (candidate cfg stream seed st.pos) (cellSize cfg)
      (numCols cfg) cfg.minDist st.grid (neighborRange cfg)
  swap
  · rw [tryOnce_reject (Or.inr h2)]
    exact ⟨hocc, hnd⟩
  rw [tryOnce_accept h1 h2]
  have hcwf : SampleWf cfg (candidate cfg stream seed st.pos) := candidate_wf hv hs seed st.pos
  have hcrect : InRect cfg (candidate cfg stream seed st.pos) := inRect_of_isInBounds h1
  have hfresh : idxOf cfg (candidate cfg stream seed st.pos) ∉ st.placed.map (idxOf cfg) := by
    intro hmem
    obtain ⟨s, hsmem, hseq⟩ := List.mem_map.mp hmem
    have hswf := (hInv.2.2.1 s hsmem).1
    have hsrect := (hInv.2.2.1 s hsmem).2
    obtain ⟨hsc0, hsc1⟩ := col_range hv hc hns hswf hsrect
    obtain ⟨hcc0, hcc1⟩ := col_range hv hc hns hcwf hcrect
    have hocc' := hocc s hsmem
    obtain ⟨nb, hnb⟩ := Option.isSome_iff_exists.mp hocc'
    have hnbidx : idxOf cfg s = idxOf cfg nb := hInv.1 (idxOf cfg s) nb hnb
    have hnbmem : nb ∈ st.placed := hInv.2.1 (idxOf cfg s) nb hnb
    have hnbwf := (hInv.2.2.1 nb hnbmem).1
    have hnbrect := (hInv.2.2.1 nb hnbmem).2
    obtain ⟨hnc0, hnc1⟩ := col_range hv hc hns hnbwf hnbrect
    have heq : idxOf cfg nb = idxOf cfg (candidate cfg stream seed st.pos) := by
      rw [← hnbidx, hseq]
    obtain ⟨hcolcell, hrowcell⟩ := linear_index_inj hnc0 hnc1 hcc0 hcc1 heq
    have hclose := same_cell_close hv hcolcell hrowcell
    have hspc := spacing_of_allowed hv hInv.1 (fun k u hk => (hInv.2.2.1 u (hInv.2.1 k u hk)).1)
      hcwf h2 (idxOf cfg s) nb hnb
    have hswap : hypot ((candidate cfg stream seed st.pos).x - nb.x)
        ((candidate cfg stream seed st.pos).y - nb.y) =
        hypot (nb.x - (candidate cfg stream seed st.pos).x)
          (nb.y - (candidate cfg stream seed st.pos).y) := hypot_sub_comm _ _ _ _
    rw [hswap] at hclose
    have hmin1 := radius_ge_minSize hc hcwf
    have hmin2 := radius_ge_minSize hc hnbwf
    have hid := cellSize_sqrt2 cfg
    linarith
  constructor
  · intro s hsmem
    rcases List.mem_append.mp hsmem with h | h
    · simp only [insertGrid, idxOf]
      split_ifs with he
      · simp
      · exact hocc s h
    · obtain rfl := List.mem_singleton.mp h
      simp [insertGrid, idxOf]
  · rw [List.map_append, List.nodup_append]
    refine ⟨hnd, by simp, ?_⟩
    intro x hx hx'
    simp only [List.map_cons, List.map_nil, List.mem_singleton] at hx'
    subst hx'
    exact hfresh hx

theorem tries_inv5 {cfg : Config} {stream : ℕ → ℝ} (hv : validConfig cfg)
    (hs : validStream stream) (hc : cfg.isCircle = true) (hns : NoColStrip cfg)
    {c0 r0 : ℤ} (seed : Sample) (n : ℕ) :
    ∀ (st : St) (f : Bool), Inv cfg st → Inv5 cfg st →
      Inv5 cfg (tries cfg stream c0 r0 seed n (st, f)).1 := by
  induction n with
  | zero =>
    intro st f h h5
    simpa [tries] using h5
  | succ n ih =>
    intro st f h h5
    simp only [tries]
    exact ih _ _ (tryOnce_inv hv hs seed st f h) (tryOnce_inv5 hv hs hc hns seed st f h h5)

theorem step_inv5 {cfg : Config} {stream : ℕ → ℝ} (hv : validConfig cfg)
    (hs : validStream stream) (hc : cfg.isCircle = true) (hns : NoColStrip cfg)
    {c0 r0 : ℤ} (st : St) (hInv : Inv cfg st) (h5 : Inv5 cfg st) :
    Inv5 cfg (step cfg stream c0 r0 st) := by
  by_cases h : st.active = []
  · simpa [step, h] using h5
  · simp only [step, if_neg h]
    have h5' : Inv5 cfg (tries cfg stream c0 r0 (pickSeed st.active (stream st.pos))
        cfg.maxTries ({ st with pos := st.pos + 1 }, false)).1 :=
      tries_inv5 hv hs hc hns _ cfg.maxTries _ false hInv h5
    split_ifs with hb
    · exact h5'
    · exact ⟨h5'.1, h5'.2⟩

theorem init_inv5 {cfg : Config} {stream : ℕ → ℝ} :
    Inv5 cfg (initState cfg stream) := by
  constructor
  · intro s hsmem
    simp only [initState, List.mem_singleton] at hsmem
    subst hsmem
    simp [initState, insertGrid, idxOf]
  · simp [initState]

theorem runState_inv5 {cfg : Config} {stream : ℕ → ℝ} (hv : validConfig cfg)
    (hs : validStream stream) (hc : cfg.isCircle = true) (hns : NoColStrip cfg)
    (hok : firstSampleOk cfg stream) (n : ℕ) :
    Inv5 cfg (runState cfg stream n) := by
  induction n with
  | zero => exact init_inv5
  | succ n ih => exact step_inv5 hv hs hc hns _ (runState_inv hv hs hok n) ih

theorem placed_card_le {cfg : Config} (hv : validConfig cfg) (hc : cfg.isCircle = true)
    (hns : NoColStrip cfg) {st : St} (hInv : Inv cfg st) (h5 : Inv5 cfg st) :
    st.placed.length ≤ (numCols cfg * (numRows cfg + 1)).toNat := by
  have hnd : (st.placed.map (idxOf cfg)).Nodup := h5.2
  have hsub : (st.placed.map (idxOf cfg)).toFinset ⊆
      Finset.Ico 0 (numCols cfg * (numRows cfg + 1)) := by
    intro x hx
    rw [List.mem_toFinset] at hx
    obtain ⟨s, hsmem, rfl⟩ := List.mem_map.mp hx
    exact Finset.mem_Ico.mpr (idx_range hv hc hns (hInv.2.2.1 s hsmem).1 (hInv.2.2.1 s hsmem).2)
  have h1 : (st.placed.map (idxOf cfg)).toFinset.card = (st.placed.map (idxOf cfg)).length :=
    List.toFinset_card_of_nodup hnd
  have h2 := Finset.card_le_card hsub
  rw [h1, List.length_map, Int.card_Ico, sub_zero] at h2
  exact h2

theorem step_measure {cfg : Config} {stream : ℕ → ℝ} (hv : validConfig cfg)
    (hs : validStream stream) (hc : cfg.isCircle = true) (hns : NoColStrip cfg)
    {c0 r0 : ℤ} {st : St} (hInv : Inv cfg st) (h5 : Inv5 cfg st)
    (hact : st.active ≠ []) :
    loopMeasure cfg (step cfg stream c0 r0 st) < loopMeasure cfg st := by
  obtain ⟨L, hpos, hp, hemp, hne⟩ := step_shape cfg stream c0 r0 st hact
  have hInv' : Inv cfg (step cfg stream c0 r0 st) := step_inv hv hs st hInv
  have h5' : Inv5 cfg (step cfg stream c0 r0 st) := step_inv5 hv hs hc hns st hInv h5
  have hle' := placed_card_le hv hc hns hInv' h5'
  rcases eq_or_ne L [] with hL | hL
  · have ha := hemp hL
    have hidx : (⌊stream st.pos * st.active.length⌋).toNat < st.active.length := by
      obtain ⟨h0, h1⟩ := hs st.pos
      have hlp : 0 < st.active.length := List.length_pos.mpr hact
      have hlr : (0:ℝ) < (st.active.length : ℝ) := by exact_mod_cast hlp
      have hfl : ⌊stream st.pos * (st.active.length : ℝ)⌋ < (st.active.length : ℤ) := by
        rw [Int.floor_lt]
        push_cast
        nlinarith
      have h0' : 0 ≤ ⌊stream st.pos * (st.active.length : ℝ)⌋ :=
        Int.floor_nonneg.mpr (by positivity)
      omega
    unfold loopMeasure
    rw [hp, hL, List.append_nil, ha, List.length_eraseIdx_of_lt hidx]
    have hlp : 0 < st.active.length := List.length_pos.mpr hact
    omega
  · have ha := hne hL
    have hle'' : st.placed.length + L.length ≤ (numCols cfg * (numRows cfg + 1)).toNat := by
      have h := hle'
      rw [hp, List.length_append] at h
      exact h
    have hL1 : 1 ≤ L.length := List.length_pos.mpr hL
    unfold loopMeasure
    rw [hp, ha, List.length_append, List.length_append]
    omega

theorem measure_empties {cfg : Config} {stream : ℕ → ℝ} (hv : validConfig cfg)
    (hs : validStream stream) (hc : cfg.isCircle = true) (hns : NoColStrip cfg)
    (hok : firstSampleOk cfg stream) :
    ∀ k n, loopMeasure cfg (runState cfg stream n) ≤ k →
      ∃ m, (runState cfg stream (n + m)).active = [] := by
  intro k
  induction k with
  | zero =>
    intro n hm
    by_cases h : (runState cfg stream n).active = []
    · exact ⟨0, h⟩
    · exfalso
      have hlp : 0 < (runState cfg stream n).active.length := List.length_pos.mpr h
      unfold loopMeasure at hm
      omega
  | succ k ih =>
    intro n hm
    by_cases h : (runState cfg stream n).active = []
    · exact ⟨0, h⟩
    · have hdec : loopMeasure cfg (runState cfg stream (n + 1)) <
          loopMeasure cfg (runState cfg stream n) :=
        step_measure hv hs hc hns (runState_inv hv hs hok n)
          (runState_inv5 hv hs hc hns hok n) h
      obtain ⟨m, hm'⟩ := ih (n + 1) (by omega)
      exact ⟨m + 1, by rwa [show n + (m + 1) = n + 1 + m by ring]⟩

/-- C5 amended: with validated inputs, positive minDist, circular samples
(isCircle = true, so every sample's radius equals its image size) and
bounds whose width stops short of numCols cellSize plus the smallest
image size (no sample can land in the column-overflow strip, whose flat
indices alias in-grid cells), the while loop over the active list
terminates after finitely many iterations for every draw sequence: some
fuel makes the embedded sampler return a result.  Proof: accepted samples
then occupy pairwise distinct flat indices in [0, numCols (numRows + 1)),
so twice the number of free slots plus the active-list length strictly
decreases at every iteration. -/
theorem growth_loop_terminates (cfg : Config) (stream : ℕ → ℝ)
    (hv : validConfig cfg) (hs : validStream stream) (hmd : 0 < cfg.minDist)
    (hc : cfg.isCircle = true) (hns : NoColStrip cfg) :
    ∃ fuel res, poissonImageSampler cfg stream fuel = some res := by
  by_cases hok : firstSampleOk cfg stream
  · obtain ⟨m, hm⟩ := measure_empties hv hs hc hns hok
      (loopMeasure cfg (runState cfg stream 0)) 0 le_rfl
    refine ⟨0 + m, ((runState cfg stream (0 + m)).placed, (runState cfg stream (0 + m)).grid), ?_⟩
    simp only [poissonImageSampler, if_pos hok]
    rw [if_pos hm]
  · exact ⟨0, ([], fun _ => none), by simp [poissonImageSampler, hok]⟩

/-- Witness for the amended C5: run R1 satisfies every hypothesis (its
bounds width 40 is below numCols cellSize + minSize = 41), and the
sampler indeed completes. -/
theorem growth_loop_terminates_witness :
    validConfig cfgR1 ∧ validStream streamR1 ∧ 0 < cfgR1.minDist ∧
      cfgR1.isCircle = true ∧ NoColStrip cfgR1 ∧
      ∃ fuel res, poissonImageSampler cfgR1 streamR1 fuel = some res := by
  have hmd : 0 < cfgR1.minDist := by
    simp only [cfgR1]
    nlinarith [sqrt2_lb]
  have hns : NoColStrip cfgR1 := by
    unfold NoColStrip
    rw [R1_numCols, R1_cellSize]
    norm_num [cfgR1, minSize]
  exact ⟨R1_valid, R1_stream_valid, hmd, rfl, hns,
    growth_loop_terminates cfgR1 streamR1 R1_valid R1_stream_valid hmd rfl hns⟩

end

end Poisson
